import Mathlib

/-!
Verification development for the HiveSpeak interpreter
(`src/compiler/evaluator.py`, helped by `src/compiler/parser.py` for the
AST shape).  The Python code is shallowly embedded: AST nodes and runtime
values become inductive types, the mutable environment chain becomes an
explicit store of frames addressed by index, and evaluation is a fueled
recursive function returning an explicit result (value / error / signal).

Modelling notes, applying to the whole file:
* Python floats are modelled as exact rationals extended with `+inf`,
  `-inf` and `nan` (`PyFloat`).  No verified statement depends on IEEE-754
  rounding; the claims touching floats only use zero tests, totality and
  the special values.
* Source-location tags carried by parser nodes are dropped: the evaluator
  never reads them and the one claim about structural node equality
  explicitly allows locations to differ.
* The host's `hashlib.sha256`/`json.dumps`/`str` functions are treated as
  parameters (`hashFn`, `pyStr`) of the definitions that use them; the
  verified statements hold for every choice of these functions.
* Python dict keys compare by `==`; `pyEq` reproduces this, including the
  `True == 1`, `0 == 0.0` numeric cross-type equalities.
-/

namespace HiveSpeak

/-- Python float values, modelled exactly: a finite value is an exact
rational; the special values `inf`, `-inf`, `nan` are separate. -/
inductive PyFloat where
  | finite (q : ℚ)
  | posInf
  | negInf
  | nan
deriving DecidableEq, Repr

/-- AST nodes, after `src/compiler/parser.py` (tagged tuples `("INT", v, loc)`
etc.); the optional `loc` field is dropped (never read by the evaluator). -/
inductive Node where
  | INT (i : ℤ)
  | FLOAT (f : PyFloat)
  | STR (s : String)
  | BOOL (b : Bool)
  | NULL
  | SYM (s : String)
  | KW (s : String)
  | HASH (s : String)
  | LIST (els : List Node)
  | MAP (els : List Node)
  | SEXPR (els : List Node)
  | QUOTE (n : Node)
  | UNQUOTE (n : Node)
  | SPLICE (n : Node)
deriving Repr

/-- Runtime values of the evaluator.  Python `None/bool/int/float/str/list/
dict` and the tagged tuples `("SYM",s)`, `("KW",s)`, `("HASH",s)`,
`("FN", params, body, env)`, `("MACRO", params, template, env)` each get a
constructor; dicts are insertion-ordered association lists; closure and
macro environments are store indices (the Python dicts are shared by
reference, which the store models). Built-in functions are referenced by
their registry name. -/
inductive Value where
  | null
  | bool (b : Bool)
  | int (i : ℤ)
  | float (f : PyFloat)
  | str (s : String)
  | sym (s : String)
  | kw (s : String)
  | hash (s : String)
  | list (xs : List Value)
  | map (entries : List (Value × Value))
  | closure (params : List String) (body : List Node) (env : Nat)
  | macroVal (params : List String) (template : Node) (env : Nat)
  | builtin (name : String)
deriving Repr

/-- Python `==` on floats: `nan` is unequal to everything (itself included). -/
def pyEqF : PyFloat → PyFloat → Bool
  | .finite a, .finite b => a = b
  | .posInf, .posInf => true
  | .negInf, .negInf => true
  | _, _ => false

mutual

/-- Python `==` on the value domain, fueled for structural recursion (one
unit per nesting level; callers supply a bound large enough for the
values compared, and the fuel-0 branch corresponds to no host behaviour).
Numeric cross-type equalities (`True == 1`, `1 == 1.0`) are reproduced;
dict equality ignores entry order; function objects (closures/macros/
builtins) compare structurally, standing in for host object identity — no
verified statement compares function values. -/
def pyEqFuel : Nat → Value → Value → Bool
  | 0, _, _ => false
  | fuel+1, a, b =>
      match a, b with
      | .null, .null => true
      | .bool a, .bool b => a = b
      | .bool a, .int i => (if a then (1 : ℤ) else 0) = i
      | .int i, .bool a => i = (if a then (1 : ℤ) else 0)
      | .bool a, .float f => pyEqF (.finite (if a then 1 else 0)) f
      | .float f, .bool a => pyEqF f (.finite (if a then 1 else 0))
      | .int a, .int b => a = b
      | .int a, .float f => pyEqF (.finite (a : ℚ)) f
      | .float f, .int a => pyEqF f (.finite (a : ℚ))
      | .float a, .float b => pyEqF a b
      | .str a, .str b => a = b
      | .sym a, .sym b => a = b
      | .kw a, .kw b => a = b
      | .hash a, .hash b => a = b
      | .list a, .list b => a.length = b.length && pyEqListFuel fuel a b
      | .map a, .map b => a.length = b.length && pyEqEntriesFuel fuel a b
      | .closure p₁ b₁ e₁, .closure p₂ b₂ e₂ =>
          p₁ = p₂ && e₁ = e₂ && b₁.length = b₂.length
      | .macroVal p₁ _ e₁, .macroVal p₂ _ e₂ => p₁ = p₂ && e₁ = e₂
      | .builtin a, .builtin b => a = b
      | _, _ => false
termination_by structural fuel => fuel

/-- Elementwise Python equality of two lists (callers check lengths). -/
def pyEqListFuel : Nat → List Value → List Value → Bool
  | 0, _, _ => false
  | fuel+1, xs, ys =>
      match xs, ys with
      | [], _ => true
      | _, [] => true
      | x :: xs, y :: ys => pyEqFuel fuel x y && pyEqListFuel fuel xs ys
termination_by structural fuel => fuel

/-- Every entry of the first dict has an `==`-equal key in the second with
an `==`-equal value (callers check lengths). -/
def pyEqEntriesFuel : Nat → List (Value × Value) → List (Value × Value) → Bool
  | 0, _, _ => false
  | fuel+1, a, b =>
      match a with
      | [] => true
      | (k, v) :: rest => pyFindEqFuel fuel b k v && pyEqEntriesFuel fuel rest b
termination_by structural fuel => fuel

/-- Fused dict lookup-and-compare: the second dict holds a key `==`-equal
to `k` whose value is `==`-equal to `v`. -/
def pyFindEqFuel : Nat → List (Value × Value) → Value → Value → Bool
  | 0, _, _, _ => false
  | fuel+1, b, k, v =>
      match b with
      | [] => false
      | (k₀, v₀) :: rest =>
          if pyEqFuel fuel k₀ k then pyEqFuel fuel v v₀
          else pyFindEqFuel fuel rest k v
termination_by structural fuel => fuel

end

/-- Python `==` restricted to hashable values — the only values the host
permits as dict keys (lists, dicts and functions are unhashable and raise
`TypeError` at dict construction, before any comparison).  Flat: on the
unreachable non-hashable shapes it returns false. -/
def pyEqAtom : Value → Value → Bool
  | .null, .null => true
  | .bool a, .bool b => a = b
  | .bool a, .int i => (if a then (1 : ℤ) else 0) = i
  | .int i, .bool a => i = (if a then (1 : ℤ) else 0)
  | .bool a, .float f => pyEqF (.finite (if a then 1 else 0)) f
  | .float f, .bool a => pyEqF f (.finite (if a then 1 else 0))
  | .int a, .int b => a = b
  | .int a, .float f => pyEqF (.finite (a : ℚ)) f
  | .float f, .int a => pyEqF f (.finite (a : ℚ))
  | .float a, .float b => pyEqF a b
  | .str a, .str b => a = b
  | .sym a, .sym b => a = b
  | .kw a, .kw b => a = b
  | .hash a, .hash b => a = b
  | _, _ => false

/-- Python dict lookup by `==`-equal key (`d.get(k)` / `k in d`). -/
def pyFind (entries : List (Value × Value)) (k : Value) : Option Value :=
  match entries with
  | [] => none
  | (k₀, v₀) :: rest => if pyEqAtom k₀ k then some v₀ else pyFind rest k

/-- Python dict assignment `d[k] = v` on an insertion-ordered association
list: an existing key equal (by `==`) to `k` keeps its position and its
original key object, only the value is replaced; otherwise the pair is
appended. -/
def dInsert : List (Value × Value) → Value → Value → List (Value × Value)
  | [], k, v => [(k, v)]
  | (k₀, v₀) :: rest, k, v =>
      if pyEqAtom k₀ k then (k₀, v) :: rest else (k₀, v₀) :: dInsert rest k v

/-- Map-literal key normalisation (`k[1] if isinstance(k, tuple) and
k[0] == "KW" else k`): a keyword key becomes its bare name string. -/
def normKey : Value → Value
  | .kw s => .str s
  | v => v

mutual

/-- `_ast_to_data` (evaluator.py:763-797): convert an AST node to runtime
data for `quote`.  The final Python fallback `return node` is unreachable
for the node kinds of this model (every kind has a branch). -/
def astToData : Node → Value
  | .INT i => .int i
  | .FLOAT f => .float f
  | .STR s => .str s
  | .BOOL b => .bool b
  | .NULL => .null
  | .SYM s => .sym s
  | .KW s => .kw s
  | .HASH s => .hash s
  | .LIST els => .list (astToDataList els)
  | .MAP els => .map (astToDataPairs els [])
  | .SEXPR els => .list (astToDataList els)
  | .QUOTE n => .list [.str "quote", astToData n]
  | .UNQUOTE n => .list [.str "unquote", astToData n]
  | .SPLICE n => .list [.str "splice", astToData n]
termination_by n => sizeOf n

/-- Elementwise `_ast_to_data` over a node list. -/
def astToDataList : List Node → List Value
  | [] => []
  | n :: rest => astToData n :: astToDataList rest
termination_by ns => sizeOf ns

/-- The `MAP` branch of `_ast_to_data`: the `while i < len(els) - 1` loop
converting alternating key/value nodes into a dict, normalising keyword
keys and silently dropping an unpaired final element. -/
def astToDataPairs : List Node → List (Value × Value) → List (Value × Value)
  | k :: v :: rest, acc =>
      astToDataPairs rest (dInsert acc (normKey (astToData k)) (astToData v))
  | _, acc => acc
termination_by ns => sizeOf ns

end

/-- Python's `el.startswith(":")`: the string begins with a colon. -/
def startsWithColon (s : String) : Bool :=
  match s.data with
  | c :: _ => c = ':'
  | [] => false

mutual

/-- `_data_to_ast` (evaluator.py:800-832): convert runtime data back to an
AST node for `eval`.  The final Python fallback `("STR", str(data))` is
reachable only for function-like values (closures, macros, builtins);
the host `str()` of those objects is not modelled (empty string stands in)
and no verified statement exercises that branch. -/
def dataToAst : Value → Node
  | .null => .NULL
  | .bool b => .BOOL b
  | .int i => .INT i
  | .float f => .FLOAT f
  | .str s => .STR s
  | .sym s => .SYM s
  | .kw s => .KW s
  | .hash s => .HASH s
  | .list (.sym s :: rest) => .SEXPR (dataToAst (.sym s) :: dataToAstList rest)
  | .list (.str s :: rest) => .SEXPR (strToSym (.str s) :: strToSymList rest)
  | .list [] => .LIST []
  | .list (v :: rest) => .LIST (dataToAst v :: dataToAstList rest)
  | .map entries => .MAP (entriesToNodes entries)
  | .closure _ _ _ => .STR ""
  | .macroVal _ _ _ => .STR ""
  | .builtin _ => .STR ""
termination_by v => sizeOf v

/-- Elementwise `_data_to_ast` over a data list. -/
def dataToAstList : List Value → List Node
  | [] => []
  | v :: rest => dataToAst v :: dataToAstList rest
termination_by vs => sizeOf vs

/-- The string-headed list branch of `_data_to_ast`: every string element
not starting with `:` is first re-tagged as a symbol. -/
def strToSym : Value → Node
  | .str s => if startsWithColon s then .STR s else .SYM s
  | v => dataToAst v
termination_by v => sizeOf v + 1

/-- Elementwise `strToSym` over a data list. -/
def strToSymList : List Value → List Node
  | [] => []
  | v :: rest => strToSym v :: strToSymList rest
termination_by vs => sizeOf vs + 1

/-- The dict branch of `_data_to_ast`: string keys become keyword nodes,
other keys are converted recursively; entries flatten in insertion order. -/
def entriesToNodes : List (Value × Value) → List Node
  | [] => []
  | (.str s, v) :: rest => .KW s :: dataToAst v :: entriesToNodes rest
  | (k, v) :: rest => dataToAst k :: dataToAst v :: entriesToNodes rest
termination_by es => sizeOf es

end



/-! ### Predicates about the quote/eval bridge (claim C1) -/

mutual

/-- The node contains no `Unquote`/`Splice` node (the claim's hypothesis). -/
def noUS : Node → Bool
  | .UNQUOTE _ => false
  | .SPLICE _ => false
  | .QUOTE n => noUS n
  | .LIST els => noUSList els
  | .MAP els => noUSList els
  | .SEXPR els => noUSList els
  | _ => true
termination_by n => sizeOf n

/-- `noUS` over a node list. -/
def noUSList : List Node → Bool
  | [] => true
  | n :: rest => noUS n && noUSList rest
termination_by ns => sizeOf ns

end

/-- The data of this node is neither a symbol tuple nor a string — the
shapes `_data_to_ast` re-interprets when they head a list. -/
def headNotSymStr : Node → Bool
  | .SYM _ => false
  | .STR _ => false
  | _ => true

mutual

/-- The class of nodes on which the quote/eval round-trip is structurally
the identity: atoms; symbol-headed s-expressions; list literals whose
first element is not a symbol or string literal; map literals with an even
number of elements whose keys are keyword nodes with pairwise-distinct
names.  `Quote`, `Unquote` and `Splice` nodes are excluded. -/
def roundTrips : Node → Bool
  | .INT _ => true
  | .FLOAT _ => true
  | .STR _ => true
  | .BOOL _ => true
  | .NULL => true
  | .SYM _ => true
  | .KW _ => true
  | .HASH _ => true
  | .LIST [] => true
  | .LIST (h :: rest) => headNotSymStr h && roundTrips h && roundTripsList rest
  | .SEXPR (.SYM _ :: rest) => roundTripsList rest
  | .SEXPR _ => false
  | .MAP els => roundTripsPairs els []
  | .QUOTE _ => false
  | .UNQUOTE _ => false
  | .SPLICE _ => false
termination_by n => sizeOf n

/-- `roundTrips` over a node list. -/
def roundTripsList : List Node → Bool
  | [] => true
  | n :: rest => roundTrips n && roundTripsList rest
termination_by ns => sizeOf ns

/-- Key/value node pairs whose keys are keyword nodes with names distinct
from each other (and from the accumulated `seen` names) and whose values
round-trip; an odd trailing element is not allowed. -/
def roundTripsPairs : List Node → List String → Bool
  | [], _ => true
  | .KW k :: v :: rest, seen =>
      !(seen.contains k) && roundTrips v && roundTripsPairs rest (k :: seen)
  | _, _ => false
termination_by ns _ => sizeOf ns

end

/-- The dict that `_ast_to_data` builds from a `MAP` node whose keys are
keyword nodes with pairwise-distinct names: the pairs in order, keyword
keys normalised to bare name strings. -/
def pairsOf : List Node → List (Value × Value)
  | .KW k :: v :: rest => (Value.str k, astToData v) :: pairsOf rest
  | _ => []


/-! ### Environment, store and evaluator (evaluator.py:16-360, 546-560) -/

/-- One environment frame: the Python dict `{"__parent__": parent, ...}`.
Bindings are the dict's string-keyed entries in insertion order; `parent`
is the `__parent__` reference, modelled as a store index. -/
structure Frame where
  bindings : List (String × Value)
  parent : Option Nat
deriving Repr

/-- The heap of frames.  Python shares frames by reference; here a frame
is addressed by its index and `make_env` appends a fresh frame. -/
abbrev Store := List Frame

/-- Python dict lookup with string keys (frame bindings). -/
def fLookup : List (String × Value) → String → Option Value
  | [], _ => none
  | (k, v) :: rest, name => if k = name then some v else fLookup rest name

/-- Python dict assignment with string keys: update in place keeping the
entry's position, else append. -/
def fSet : List (String × Value) → String → Value → List (String × Value)
  | [], name, v => [(name, v)]
  | (k, v₀) :: rest, name, v =>
      if k = name then (k, v) :: rest else (k, v₀) :: fSet rest name v

/-- `env_get` chain walk (evaluator.py:25-30) with an explicit bound on
the number of frames visited; the evaluator only ever builds acyclic
parent chains (a frame's parent always pre-exists it), so a bound of the
store size is never the limiting factor. -/
def envGetGo : Nat → Store → Nat → String → Option Value
  | 0, _, _, _ => none
  | d+1, st, idx, name =>
      match st.get? idx with
      | none => none
      | some fr =>
          match fLookup fr.bindings name with
          | some v => some v
          | none =>
              match fr.parent with
              | some p => envGetGo d st p name
              | none => none

/-- `env_get`: first binding found walking the chain from `idx` rootwards. -/
def envGet (st : Store) (idx : Nat) (name : String) : Option Value :=
  envGetGo st.length st idx name

/-- `env_set` (evaluator.py:33-35): `env[name] = value` — always mutates
the given frame, never an ancestor. -/
def envSetFrame (st : Store) (idx : Nat) (name : String) (v : Value) : Store :=
  match st.get? idx with
  | some fr => st.set idx ⟨fSet fr.bindings name v, fr.parent⟩
  | none => st

/-- Evaluation outcomes.  Python exceptions become explicit constructors:
`NameError` → `undefinedSymbol`, `RuntimeError("Not callable")` →
`notCallable`, other host exceptions (`RuntimeError`, `TypeError`,
`IndexError`, `ZeroDivisionError`) → `runtimeError`, `_HiveSpeakError` →
`thrown`, `_Recur` → `recurSig`; `outOfFuel` is the artefact of the fuel
bound and corresponds to no Python behaviour. -/
inductive EvalErr where
  | outOfFuel
  | undefinedSymbol (name : String)
  | notCallable
  | runtimeError (msg : String)
  | thrown (v : Value)
  | recurSig (vs : List Value)
deriving Repr

/-- Result of an evaluation step: a value (or other payload) or an error,
in both cases with the store as mutated so far (Python exceptions do not
roll back dict mutations). -/
inductive ResV (α : Type) where
  | ok (a : α) (st : Store)
  | err (e : EvalErr) (st : Store)
deriving Repr

abbrev Res := ResV Value

/-- `_truthy` (evaluator.py:548-554): `None`/`False`, then anything
`== 0`, `== ""`, `== []`, `== {}` is falsy; everything else truthy.
Comparison against these atomic/empty constants settles within two
recursion levels for every value, so the constant fuel 3 realises the
host's unbounded `==` exactly. -/
def truthy : Value → Bool
  | .null => false
  | .bool false => false
  | v => !(pyEqFuel 3 v (.int 0) || pyEqFuel 3 v (.str "") ||
           pyEqFuel 3 v (.list []) || pyEqFuel 3 v (.map []))

/-- `n[1]` where a string is expected (symbol names in binding positions).
The parser only ever places strings there; binding names carrying
non-string payloads (possible only for hand-built ASTs) are not modelled
and surface as a `runtimeError`. -/
def nodeName : Node → Option String
  | .SYM s => some s
  | .KW s => some s
  | .STR s => some s
  | .HASH s => some s
  | _ => none

/-- `n[1]` where a list of nodes is expected (binding vectors, parameter
vectors, catch forms). -/
def nodeElems : Node → Option (List Node)
  | .LIST els => some els
  | .MAP els => some els
  | .SEXPR els => some els
  | _ => none

/-- `[p[1] for p in parts]` for parameter vectors. -/
def paramNames : List Node → Option (List String)
  | [] => some []
  | n :: rest =>
      match nodeName n, paramNames rest with
      | some s, some ss => some (s :: ss)
      | _, _ => none

/-- `_bind_params` (evaluator.py:154-167): positional binding into a fresh
frame's dict; `&` collects the remaining arguments into one list bound to
the following name (and stops); a parameter beyond the arguments binds to
`Null`. -/
def bindParamsGo : List String → List Value → List (String × Value) → List (String × Value)
  | [], _, b => b
  | p :: ps, args, b =>
      if p = "&" then
        match ps with
        | r :: _ => fSet b r (.list args)
        | [] => b
      else
        match args with
        | a :: rest => bindParamsGo ps rest (fSet b p a)
        | [] => bindParamsGo ps [] (fSet b p .null)

/-! ### Numeric builtins (evaluator.py:603-676) -/

/-- A Python number: `bool` coerces to `int` in arithmetic contexts. -/
inductive Num where
  | i (n : ℤ)
  | f (x : PyFloat)

/-- Values acceptable to arithmetic/comparison operators. -/
def asNum : Value → Option Num
  | .int n => some (.i n)
  | .bool b => some (.i (if b then 1 else 0))
  | .float x => some (.f x)
  | _ => none

/-- Float negation. -/
def negF : PyFloat → PyFloat
  | .finite q => .finite (-q)
  | .posInf => .negInf
  | .negInf => .posInf
  | .nan => .nan

/-- Float addition with the IEEE special-value rules the host follows. -/
def addF : PyFloat → PyFloat → PyFloat
  | .nan, _ => .nan
  | _, .nan => .nan
  | .posInf, .negInf => .nan
  | .negInf, .posInf => .nan
  | .posInf, _ => .posInf
  | _, .posInf => .posInf
  | .negInf, _ => .negInf
  | _, .negInf => .negInf
  | .finite a, .finite b => .finite (a + b)

/-- Float multiplication with the IEEE special-value rules. -/
def mulF : PyFloat → PyFloat → PyFloat
  | .nan, _ => .nan
  | _, .nan => .nan
  | .finite a, .finite b => .finite (a * b)
  | .posInf, .posInf => .posInf
  | .posInf, .negInf => .negInf
  | .negInf, .posInf => .negInf
  | .negInf, .negInf => .posInf
  | .posInf, .finite b => if b = 0 then .nan else if 0 < b then .posInf else .negInf
  | .finite a, .posInf => if a = 0 then .nan else if 0 < a then .posInf else .negInf
  | .negInf, .finite b => if b = 0 then .nan else if 0 < b then .negInf else .posInf
  | .finite a, .negInf => if a = 0 then .nan else if 0 < a then .negInf else .posInf

/-- Float division for a nonzero divisor (the zero divisor raises in the
host and is guarded before this is reached).  A finite quotient is exact
here where the host rounds to the nearest double; no verified statement
depends on the rounded digits.  The sign of a zero produced by dividing a
finite value by an infinity is not tracked (`-0.0` and `0.0` are `==` in
the host). -/
def divF : PyFloat → PyFloat → PyFloat
  | .nan, _ => .nan
  | _, .nan => .nan
  | .finite a, .finite b => if b = 0 then .nan else .finite (a / b)
  | .posInf, .posInf => .nan
  | .posInf, .negInf => .nan
  | .negInf, .posInf => .nan
  | .negInf, .negInf => .nan
  | .posInf, .finite b => if 0 ≤ b then .posInf else .negInf
  | .negInf, .finite b => if 0 ≤ b then .negInf else .posInf
  | .finite _, .posInf => .finite 0
  | .finite _, .negInf => .finite 0

/-- Float strict comparison; any comparison involving `nan` is false. -/
def ltF : PyFloat → PyFloat → Bool
  | .nan, _ => false
  | _, .nan => false
  | .finite a, .finite b => a < b
  | .finite _, .posInf => true
  | .finite _, .negInf => false
  | .posInf, _ => false
  | .negInf, .negInf => false
  | .negInf, _ => true

/-- Lift to a common numeric type, as the host does. -/
def numF : Num → PyFloat
  | .i n => .finite (n : ℚ)
  | .f x => x

/-- Python `a + b` on numbers: `int + int` stays `int`. -/
def numAdd : Num → Num → Num
  | .i a, .i b => .i (a + b)
  | a, b => .f (addF (numF a) (numF b))

/-- Python `a - b` on numbers. -/
def numSub : Num → Num → Num
  | .i a, .i b => .i (a - b)
  | a, b => .f (addF (numF a) (negF (numF b)))

/-- Python `a * b` on numbers. -/
def numMul : Num → Num → Num
  | .i a, .i b => .i (a * b)
  | a, b => .f (mulF (numF a) (numF b))

/-- Python `a < b` on numbers. -/
def numLt : Num → Num → Bool
  | .i a, .i b => a < b
  | a, b => ltF (numF a) (numF b)

/-- Python `a == b` on numbers (used for `<=`/`>=`). -/
def numEq : Num → Num → Bool
  | .i a, .i b => a = b
  | a, b => pyEqF (numF a) (numF b)

def numToVal : Num → Value
  | .i n => .int n
  | .f x => .float x

/-- Python `a + b` on values: numeric addition, string and list
concatenation; anything else is a `TypeError`.  (String/sequence
repetition via `*` is not modelled; no claim touches it.) -/
def pyAdd : Value → Value → Except EvalErr Value
  | .str a, .str b => .ok (.str (a ++ b))
  | .list a, .list b => .ok (.list (a ++ b))
  | a, b =>
      match asNum a, asNum b with
      | some x, some y => .ok (numToVal (numAdd x y))
      | _, _ => .error (.runtimeError "TypeError")

/-- Python `a - b` on values. -/
def pySub (a b : Value) : Except EvalErr Value :=
  match asNum a, asNum b with
  | some x, some y => .ok (numToVal (numSub x y))
  | _, _ => .error (.runtimeError "TypeError")

/-- Python `a * b` on values (numbers only; see `pyAdd`). -/
def pyMul (a b : Value) : Except EvalErr Value :=
  match asNum a, asNum b with
  | some x, some y => .ok (numToVal (numMul x y))
  | _, _ => .error (.runtimeError "TypeError")

/-- Python `a / b` (true division): always a float; a zero divisor raises
`ZeroDivisionError`. -/
def rawDiv (a b : Value) : Except EvalErr Value :=
  match asNum a, asNum b with
  | some x, some y =>
      if numEq y (.i 0) then .error (.runtimeError "ZeroDivisionError")
      else .ok (.float (divF (numF x) (numF y)))
  | _, _ => .error (.runtimeError "TypeError")

/-- The `"/"` table entry's operator (evaluator.py:675):
`a / b if b != 0 else float('inf')`. -/
def divOp (a b : Value) : Except EvalErr Value :=
  if pyEqFuel 3 b (.int 0) then .ok (.float .posInf) else rawDiv a b

/-- The `"%"` table entry: Python `a % b` (sign follows the divisor) for
integers; a zero divisor raises; float modulo is not modelled (no claim
touches it). -/
def pyMod (a b : Value) : Except EvalErr Value :=
  match a, b with
  | .int m, .int n =>
      if n = 0 then .error (.runtimeError "ZeroDivisionError")
      else .ok (.int (Int.fmod m n))
  | _, _ => .error (.runtimeError "TypeError")

/-- Python `a < b` on values: numbers and strings (lexicographic); list
comparison is not modelled (no claim touches it). -/
def pyLt (a b : Value) : Except EvalErr Value :=
  match a, b with
  | .str x, .str y => .ok (.bool (decide (x < y)))
  | _, _ =>
      match asNum a, asNum b with
      | some x, some y => .ok (.bool (numLt x y))
      | _, _ => .error (.runtimeError "TypeError")

/-- Python `a <= b` on values. -/
def pyLe (a b : Value) : Except EvalErr Value :=
  match a, b with
  | .str x, .str y => .ok (.bool (decide (x < y) || decide (x = y)))
  | _, _ =>
      match asNum a, asNum b with
      | some x, some y => .ok (.bool (numLt x y || numEq x y))
      | _, _ => .error (.runtimeError "TypeError")

/-- `_arith` (evaluator.py:604-612): variadic fold; one argument applies
the operator to the identity and that argument; zero arguments raise
(`args[0]` on an empty tuple). -/
def arithFold (op : Value → Value → Except EvalErr Value) (identity : Value) :
    List Value → Except EvalErr Value
  | [] => .error (.runtimeError "IndexError")
  | [a] => op identity a
  | a :: rest => rest.foldlM op a

/-- `_cmp` (evaluator.py:616-619): strictly binary. -/
def binOp (f : Value → Value → Except EvalErr Value) :
    List Value → Except EvalErr Value
  | [a, b] => f a b
  | _ => .error (.runtimeError "TypeError")

/-- The `_BUILTINS` entries the verified statements exercise
(evaluator.py:670-689).  The string/list/map/type/I-O utilities of the
table are referenced by no claim and are left unmodelled: calling one
surfaces as a `runtimeError` rather than a behaviour.  The fuel argument
bounds only the recursion depth of the `=`/`!=` value comparison (the
host's `==` is unbounded); the evaluator passes its remaining fuel, which
dwarfs the depth of any value an evaluation that deep can build. -/
def applyBuiltin : Nat → String → List Value → Except EvalErr Value
  | _, "+", args => arithFold pyAdd (.int 0) args
  | _, "-", args => arithFold pySub (.int 0) args
  | _, "*", args => arithFold pyMul (.int 1) args
  | _, "/", args => arithFold divOp (.int 1) args
  | _, "%", args => binOp pyMod args
  | fuel, "=", args => binOp (fun a b => .ok (.bool (pyEqFuel fuel a b))) args
  | fuel, "!=", args => binOp (fun a b => .ok (.bool (!pyEqFuel fuel a b))) args
  | _, "<", args => binOp pyLt args
  | _, ">", args => binOp (fun a b => pyLt b a) args
  | _, "<=", args => binOp pyLe args
  | _, ">=", args => binOp (fun a b => pyLe b a) args
  | _, "and", args => binOp (fun a b => .ok (if truthy a then b else a)) args
  | _, "or", args => binOp (fun a b => .ok (if truthy a then a else b)) args
  | _, "not", args =>
      match args with
      | [a] => .ok (.bool (!truthy a))
      | _ => .error (.runtimeError "TypeError")
  | _, name, _ => .error (.runtimeError ("builtin not modelled: " ++ name))

/-- The `_SPECIAL_FORMS` registry's key set (evaluator.py:510-543): a
symbol in head position naming any of these dispatches to its handler
with unevaluated arguments. -/
def specialNames : List String :=
  ["def", "let", "fn", "if", "do", "match", "loop", "recur", "quote",
   "eval", "macro", "try", "catch", "throw", "|>", "mod", "use",
   "cell", "emit", "recv", "merge", "compress", "ref", "packet",
   "assert!", "ask?", "request!", "suggest~", "accept+", "reject-"]

/-- `for n, v in zip(names, vals): env_set(loop_env, n, v)` — sequential
rebinding in one frame, truncating to the shorter list. -/
def bindAll (addr : Nat) : List String → List Value → Store → Store
  | n :: ns, v :: vs, st => bindAll addr ns vs (envSetFrame st addr n v)
  | _, _, st => st

mutual

/-- `evaluate` (evaluator.py:55-101), with a fuel bound for termination.
Every recursive step consumes one unit; `outOfFuel` corresponds to no
Python behaviour and every verified statement is phrased so it never
rests on fuel exhaustion. -/
def evaluate : Nat → Node → Nat → Store → Res
  | 0, _, _, st => .err .outOfFuel st
  | fuel+1, node, env, st =>
      match node with
      | .INT i => .ok (.int i) st
      | .FLOAT f => .ok (.float f) st
      | .STR s => .ok (.str s) st
      | .BOOL b => .ok (.bool b) st
      | .NULL => .ok .null st
      | .SYM s =>
          match envGet st env s with
          | some v => .ok v st
          | none => .err (.undefinedSymbol s) st
      | .KW s => .ok (.kw s) st
      | .HASH s => .ok (.hash s) st
      | .LIST els =>
          match evalArgs fuel els env st with
          | .ok vs st' => .ok (.list vs) st'
          | .err e st' => .err e st'
      | .MAP els =>
          match evalMapElems fuel els env [] st with
          | .ok entries st' => .ok (.map entries) st'
          | .err e st' => .err e st'
      | .QUOTE m => .ok (astToData m) st
      | .SEXPR els => evalSexpr fuel els env st
      | .UNQUOTE _ => .err (.runtimeError "Cannot evaluate node type") st
      | .SPLICE _ => .err (.runtimeError "Cannot evaluate node type") st
termination_by structural fuel => fuel

/-- `_eval_sexpr` (evaluator.py:113-128): empty s-expressions yield
`Null`; a special-form symbol head dispatches unevaluated; otherwise the
head and all arguments are evaluated left-to-right and applied. -/
def evalSexpr : Nat → List Node → Nat → Store → Res
  | 0, _, _, st => .err .outOfFuel st
  | fuel+1, els, env, st =>
      match els with
      | [] => .ok .null st
      | head :: args =>
          match head with
          | .SYM s =>
              if s ∈ specialNames then sfDispatch fuel s args env st
              else evalApply fuel head args env st
          | _ => evalApply fuel head args env st
termination_by structural fuel => fuel

/-- The special-form handlers this development models, dispatched by name
(each branch is commented with its Python handler).  The remaining
registry entries — `match`, `eval`, `macro`, the pipe, modules, the hive
primitives and the intents — are referenced by no claim about whole-program
evaluation and are left unmodelled (the hive primitives `cell`, `compress`
and `ref` are modelled separately at handler level). -/
def sfDispatch : Nat → String → List Node → Nat → Store → Res
  | 0, _, _, _, st => .err .outOfFuel st
  | fuel+1, name, args, env, st =>
      match name with
      | "def" =>  -- _sf_def (172-185)
          match args with
          | (.SEXPR parts) :: body =>
              match parts with
              | [] => .err (.runtimeError "IndexError") st
              | nameN :: paramNs =>
                  match nodeName nameN, paramNames paramNs with
                  | some nm, some ps =>
                      .ok (.closure ps body env)
                        (envSetFrame st env nm (.closure ps body env))
                  | _, _ => .err (.runtimeError "TypeError") st
          | nameN :: valN :: _ =>
              match nodeName nameN with
              | some nm =>
                  match evaluate fuel valN env st with
                  | .ok v st' => .ok v (envSetFrame st' env nm v)
                  | .err e st' => .err e st'
              | none => .err (.runtimeError "TypeError") st
          | _ => .err (.runtimeError "IndexError") st
      | "let" =>  -- _sf_let (188-203)
          match args with
          | bnode :: body =>
              match nodeElems bnode with
              | some pairs =>
                  match evalLetBinds fuel pairs st.length (st ++ [⟨[], some env⟩]) with
                  | .ok _ st' => evalSeq fuel body st.length .null st'
                  | .err e st' => .err e st'
              | none => .err (.runtimeError "TypeError") st
          | [] => .err (.runtimeError "IndexError") st
      | "fn" =>  -- _sf_fn (206-211)
          match args with
          | pnode :: body =>
              match nodeElems pnode with
              | some pns =>
                  match paramNames pns with
                  | some ps => .ok (.closure ps body env) st
                  | none => .err (.runtimeError "TypeError") st
              | none => .err (.runtimeError "TypeError") st
          | [] => .err (.runtimeError "IndexError") st
      | "if" =>  -- _sf_if (214-221)
          match args with
          | condN :: rest =>
              match evaluate fuel condN env st with
              | .ok v st' =>
                  if truthy v then
                    match rest with
                    | thenN :: _ => evaluate fuel thenN env st'
                    | [] => .err (.runtimeError "IndexError") st'
                  else
                    match rest with
                    | _ :: elseN :: _ => evaluate fuel elseN env st'
                    | _ => .ok .null st'
              | .err e st' => .err e st'
          | [] => .err (.runtimeError "IndexError") st
      | "do" =>  -- _sf_do (224-229)
          evalSeq fuel args env .null st
      | "loop" =>  -- _sf_loop (253-276)
          match args with
          | bnode :: body =>
              match nodeElems bnode with
              | some pairs =>
                  match evalLoopInits fuel pairs st.length (st ++ [⟨[], some env⟩]) with
                  | .ok (names, vals) st' =>
                      loopGo fuel body names st.length (bindAll st.length names vals st')
                  | .err e st' => .err e st'
              | none => .err (.runtimeError "TypeError") st
          | [] => .err (.runtimeError "IndexError") st
      | "recur" =>  -- _sf_recur (279-288)
          match evalArgs fuel args env st with
          | .ok vs st' => .err (.recurSig vs) st'
          | .err e st' => .err e st'
      | "quote" =>  -- _sf_quote (291-293)
          match args with
          | n :: _ => .ok (astToData n) st
          | [] => .err (.runtimeError "IndexError") st
      | "try" =>  -- _sf_try (313-328)
          match args with
          | [] => .err (.runtimeError "IndexError") st
          | bodyN :: rest =>
              match evaluate fuel bodyN env st with
              | .ok v st' => .ok v st'
              | .err (.thrown ev) st' =>
                  match rest with
                  | (.SEXPR catchForm) :: _ =>
                      match catchForm with
                      | [] => .err (.runtimeError "IndexError") st'
                      | (.SYM "catch") :: crest =>
                          match crest with
                          | nameN :: handler =>
                              match nodeName nameN with
                              | some nm =>
                                  evalSeq fuel handler st'.length .null
                                    (st' ++ [⟨[(nm, ev)], some env⟩])
                              | none => .err (.runtimeError "TypeError") st'
                          | [] => .err (.runtimeError "IndexError") st'
                      | _ => .err (.thrown ev) st'
                  | _ => .err (.thrown ev) st'
              | .err e st' => .err e st'
      | "catch" =>  -- registry entry: lambda a, e: None (523)
          .ok .null st
      | "throw" =>  -- _sf_throw (331-333)
          match args with
          | n :: _ =>
              match evaluate fuel n env st with
              | .ok v st' => .err (.thrown v) st'
              | .err e st' => .err e st'
          | [] => .err (.runtimeError "IndexError") st
      | _ => .err (.runtimeError ("special form not modelled: " ++ name)) st
termination_by structural fuel => fuel

/-- The apply path of `_eval_sexpr`: evaluate the head, then the
arguments left-to-right, then apply. -/
def evalApply : Nat → Node → List Node → Nat → Store → Res
  | 0, _, _, _, st => .err .outOfFuel st
  | fuel+1, head, args, env, st =>
      match evaluate fuel head env st with
      | .ok fnVal st' =>
          match evalArgs fuel args env st' with
          | .ok vs st'' => applyFn fuel fnVal vs st''
          | .err e st'' => .err e st''
      | .err e st' => .err e st'
termination_by structural fuel => fuel

/-- `apply_fn` (evaluator.py:131-151): builtins apply directly; a closure
gets exactly one fresh frame over its captured environment with the
parameters bound by `_bind_params`, and its body evaluates there in
sequence; a macro value is rejected; anything else is not callable. -/
def applyFn : Nat → Value → List Value → Store → Res
  | 0, _, _, st => .err .outOfFuel st
  | fuel+1, fnVal, args, st =>
      match fnVal with
      | .builtin name =>
          match applyBuiltin fuel name args with
          | .ok v => .ok v st
          | .error e => .err e st
      | .closure params body cenv =>
          evalSeq fuel body st.length .null
            (st ++ [⟨bindParamsGo params args [], some cenv⟩])
      | .macroVal _ _ _ =>
          .err (.runtimeError "Macros cannot be applied as values") st
      | _ => .err .notCallable st
termination_by structural fuel => fuel

/-- Left-to-right evaluation of argument lists. -/
def evalArgs : Nat → List Node → Nat → Store → ResV (List Value)
  | 0, _, _, st => .err .outOfFuel st
  | fuel+1, nodes, env, st =>
      match nodes with
      | [] => .ok [] st
      | n :: rest =>
          match evaluate fuel n env st with
          | .ok v st' =>
              match evalArgs fuel rest env st' with
              | .ok vs st'' => .ok (v :: vs) st''
              | .err e st'' => .err e st''
          | .err e st' => .err e st'
termination_by structural fuel => fuel

/-- Sequential body evaluation: `result = None; for node in body: result =
evaluate(node, env)` — the value is the last expression's (or the
initial `Null` for an empty body). -/
def evalSeq : Nat → List Node → Nat → Value → Store → Res
  | 0, _, _, _, st => .err .outOfFuel st
  | fuel+1, nodes, env, prev, st =>
      match nodes with
      | [] => .ok prev st
      | n :: rest =>
          match evaluate fuel n env st with
          | .ok v st' => evalSeq fuel rest env v st'
          | .err e st' => .err e st'
termination_by structural fuel => fuel

/-- The `MAP` branch of `evaluate` (evaluator.py:79-91): the
`while i < len(elements) - 1` loop evaluates complete key/value pairs
left-to-right, normalises keyword keys, and never touches an unpaired
final element. -/
def evalMapElems : Nat → List Node → Nat → List (Value × Value) → Store →
    ResV (List (Value × Value))
  | 0, _, _, _, st => .err .outOfFuel st
  | fuel+1, els, env, acc, st =>
      match els with
      | kN :: vN :: rest =>
          match evaluate fuel kN env st with
          | .ok k st' =>
              match evaluate fuel vN env st' with
              | .ok v st'' => evalMapElems fuel rest env (dInsert acc (normKey k) v) st''
              | .err e st'' => .err e st''
          | .err e st' => .err e st'
      | _ => .ok acc st
termination_by structural fuel => fuel

/-- The binding-evaluation loop of `_sf_let`: names bind sequentially in
the `let` frame, each initialiser seeing the previous bindings. -/
def evalLetBinds : Nat → List Node → Nat → Store → ResV Unit
  | 0, _, _, st => .err .outOfFuel st
  | fuel+1, pairs, addr, st =>
      match pairs with
      | nameN :: valN :: rest =>
          match nodeName nameN with
          | some nm =>
              match evaluate fuel valN addr st with
              | .ok v st' => evalLetBinds fuel rest addr (envSetFrame st' addr nm v)
              | .err e st' => .err e st'
          | none => .err (.runtimeError "TypeError") st
      | _ => .ok () st
termination_by structural fuel => fuel

/-- The binding-evaluation loop of `_sf_loop`: initialisers are all
evaluated in the loop frame first (collected into `names`/`vals`), and
only then bound — unlike `let`. -/
def evalLoopInits : Nat → List Node → Nat → Store → ResV (List String × List Value)
  | 0, _, _, st => .err .outOfFuel st
  | fuel+1, pairs, addr, st =>
      match pairs with
      | nameN :: valN :: rest =>
          match nodeName nameN with
          | some nm =>
              match evaluate fuel valN addr st with
              | .ok v st' =>
                  match evalLoopInits fuel rest addr st' with
                  | .ok (ns, vs) st'' => .ok (nm :: ns, v :: vs) st''
                  | .err e st'' => .err e st''
              | .err e st' => .err e st'
          | none => .err (.runtimeError "TypeError") st
      | _ => .ok ([], []) st
termination_by structural fuel => fuel

/-- The `while True: try ... except _Recur` loop of `_sf_loop`: a
loop-continuation signal from the body rebinds the loop names in the
existing loop frame (zip truncation included) and re-executes; any other
outcome — value or error — is the loop's outcome. -/
def loopGo : Nat → List Node → List String → Nat → Store → Res
  | 0, _, _, _, st => .err .outOfFuel st
  | fuel+1, body, names, addr, st =>
      match evalSeq fuel body addr .null st with
      | .err (.recurSig vs) st' => loopGo fuel body names addr (bindAll addr names vs st')
      | r => r
termination_by structural fuel => fuel

end

/-- `default_env` (evaluator.py:837-844): the root frame holds the builtin
table (here: the modelled names) and then `T`/`F`/`N`. -/
def modelledBuiltins : List String :=
  ["+", "-", "*", "/", "%", "=", "!=", "<", ">", "<=", ">=", "and", "or", "not"]

def defaultFrame : Frame :=
  ⟨modelledBuiltins.map (fun n => (n, Value.builtin n)) ++
    [("T", .bool true), ("F", .bool false), ("N", .null)], none⟩

def initStore : Store := [defaultFrame]

/-- `run_program` (evaluator.py:847-854): evaluate top-level nodes in
sequence against the default environment, returning the last value. -/
def runProgram (fuel : Nat) (nodes : List Node) : Res :=
  evalSeq fuel nodes 0 .null initStore



/-! ### Hive primitives modelled at handler level (evaluator.py:396-496)

The claims about `cell`, `compress` and `ref` concern what the handlers do
with their already-evaluated argument and the process-wide packet table,
so they are modelled as functions of that argument with the table passed
explicitly.  `pyStr` stands for the host's `str()` and `hashFn` for the
composition `json.dumps` → `sha256` → hexdigest truncation; the verified
statements hold for every choice of the two. -/

/-- `_sf_cell` core (399-403): a cell is a dict with a content-derived id
(`sha256(json.dumps(str(state)))[:12]`) and an empty inbox.  No counter,
clock or other per-call component enters the id. -/
def cellCore (pyStr : Value → String) (hashFn : String → String)
    (state : Value) : Value :=
  .map [(.str "__type__", .str "cell"),
        (.str "id", .str (hashFn (pyStr state))),
        (.str "state", state),
        (.str "inbox", .list [])]

/-- `counts[key] = counts.get(key, 0) + 1` on the insertion-ordered
counts dict. -/
def bumpCount : List (String × Nat) → String → List (String × Nat)
  | [], key => [(key, 1)]
  | (k, c) :: rest, key =>
      if k = key then (k, c + 1) :: rest else (k, c) :: bumpCount rest key

/-- The counting loop of `_sf_compress`: occurrences of each `str(v)`,
keys in first-occurrence order. -/
def buildCounts (pyStr : Value → String) : List Value → List (String × Nat) →
    List (String × Nat)
  | [], counts => counts
  | v :: rest, counts => buildCounts pyStr rest (bumpCount counts (pyStr v))

/-- `max(counts, key=counts.get)`: scan in insertion order keeping the
first key whose count strictly exceeds the best so far — i.e. the first
key achieving the maximum. -/
def maxKeyGo (best : String) (bc : Nat) : List (String × Nat) → String
  | [] => best
  | (k, c) :: rest => if bc < c then maxKeyGo k c rest else maxKeyGo best bc rest

def maxKey : List (String × Nat) → Option String
  | [] => none
  | (k, c) :: rest => some (maxKeyGo k c rest)

/-- `for v in values: if str(v) == winner: compressed[k] = v; break`. -/
def firstWithStr (pyStr : Value → String) (w : String) : List Value → Option Value
  | [] => none
  | v :: rest => if pyStr v = w then some v else firstWithStr pyStr w rest

/-- One key's consensus: the first-encountered value whose string class is
the most frequent (first key achieving the maximum count); `none` for an
empty value list (the `if values:` guard). -/
def compressKey (pyStr : Value → String) (values : List Value) : Option Value :=
  match maxKey (buildCounts pyStr values []) with
  | some w => firstWithStr pyStr w values
  | none => none

/-- The per-key compression loop over the `shared` dict, in dict order.
`_sf_merge` only ever stores lists in `shared`; a non-list value
(unreachable through the language) is skipped here. -/
def compressEntries (pyStr : Value → String) :
    List (Value × Value) → List (Value × Value)
  | [] => []
  | (k, .list vs) :: rest =>
      match compressKey pyStr vs with
      | some w => (k, w) :: compressEntries pyStr rest
      | none => compressEntries pyStr rest
  | (_, _) :: rest => compressEntries pyStr rest

/-- `_sf_compress` core (453-477) on the evaluated argument: a
non-collective yields the failure marker `{"fail": "not-collective"}`
and leaves the table unchanged; a collective's `shared` dict is
compressed key-by-key, wrapped as a packet keyed by a content hash,
stored in the table, and returned as `{"ok": packet}`.  A collective
whose `shared` is not a dict is unreachable through the language
(`_sf_merge` always builds one) and is treated as empty here. -/
def compressCore (pyStr : Value → String) (hashFn : String → String)
    (coll : Value) (pstore : List (String × Value)) :
    Value × List (String × Value) :=
  match coll with
  | .map entries =>
      match pyFind entries (.str "__type__") with
      | some t =>
          if pyEqAtom t (.str "collective") then
            let shared :=
              match pyFind entries (.str "shared") with
              | some (.map se) => se
              | _ => []
            let compressed := compressEntries pyStr shared
            let h := hashFn (pyStr (.map compressed))
            let packet : Value :=
              .map [(.str "__type__", .str "packet"),
                    (.str "hash", .str h),
                    (.str "data", .map compressed)]
            (.map [(.str "ok", packet)], fSet pstore h packet)
          else (.map [(.str "fail", .str "not-collective")], pstore)
      | none => (.map [(.str "fail", .str "not-collective")], pstore)
  | _ => (.map [(.str "fail", .str "not-collective")], pstore)

/-- `_sf_ref` core (480-486): unwrap a `("HASH", h)` value to its string,
apply `str()` to anything else, and look the packet table up; `Null` when
absent. -/
def refCore (pyStr : Value → String) (hv : Value)
    (pstore : List (String × Value)) : Value :=
  let s := match hv with
           | .hash h => h
           | .str s => s
           | v => pyStr v
  (fLookup pstore s).getD .null

/-! ### Projections and claim-side definitions -/

/-- The value of a result, when it is one. -/
def resValue : Res → Option Value
  | .ok v _ => some v
  | .err _ _ => none

/-- The claim's falsy set (C3), written from the spec's words — `Null`,
`false`, integer `0`, the empty string, the empty list, the empty map —
for comparison against the code's `_truthy`. -/
def specFalsy : Value → Bool
  | .null => true
  | .bool false => true
  | .int 0 => true
  | .str "" => true
  | .list [] => true
  | .map [] => true
  | _ => false

mutual

/-- The symbol `s` occurs somewhere in the node (C2: a function whose
definition mentions no `loop` has no lexically enclosing loop). -/
def containsSym (s : String) : Node → Bool
  | .SYM t => t = s
  | .LIST els => containsSymList s els
  | .MAP els => containsSymList s els
  | .SEXPR els => containsSymList s els
  | .QUOTE n => containsSym s n
  | .UNQUOTE n => containsSym s n
  | .SPLICE n => containsSym s n
  | _ => false
termination_by n => sizeOf n

/-- `containsSym` over a node list. -/
def containsSymList (s : String) : List Node → Bool
  | [] => false
  | n :: rest => containsSym s n || containsSymList s rest
termination_by ns => sizeOf ns

end


/-- The program `(def (f) (recur 99))` `(loop [i 0] (if (= i 99) i (f)))`:
the `recur` sits in a function whose definition has no enclosing `loop`;
the call `(f)` happens inside a loop body (C2). -/
def recurThroughCallProg : List Node :=
  [Node.SEXPR [Node.SYM "def", Node.SEXPR [Node.SYM "f"],
     Node.SEXPR [Node.SYM "recur", Node.INT 99]],
   Node.SEXPR [Node.SYM "loop", Node.LIST [Node.SYM "i", Node.INT 0],
     Node.SEXPR [Node.SYM "if",
       Node.SEXPR [Node.SYM "=", Node.SYM "i", Node.INT 99],
       Node.SYM "i",
       Node.SEXPR [Node.SYM "f"]]]]


/-- Python `d.get(key)` with a string key on a value expected to be a
dict (`cell.get("id")` and similar accesses). -/
def pyGet (v : Value) (key : String) : Option Value :=
  match v with
  | .map es => pyFind es (.str key)
  | _ => none


/-- `counts.get(key, 0)` on the insertion-ordered counts dict. -/
def lookupCnt : List (String × Nat) → String → Nat
  | [], _ => 0
  | (k, c) :: rest, s => if k = s then c else lookupCnt rest s

/-- The number of occurrences in `vs` of values whose string
representation is `s` — the frequency `_sf_compress` counts. -/
def cntStr (pyStr : Value → String) (vs : List Value) (s : String) : Nat :=
  (vs.filter (fun v => pyStr v = s)).length

/-- Index of the first value of string class `s` (length when absent). -/
def foIdx (pyStr : Value → String) : List Value → String → Nat
  | [], _ => 0
  | v :: rest, s => if pyStr v = s then 0 else foIdx pyStr rest s + 1

/-- The collective test of `_sf_compress`
(`isinstance(coll, dict) and coll.get("__type__") == "collective"`). -/
def isCollective (v : Value) : Bool :=
  match v with
  | .map es =>
      match pyFind es (.str "__type__") with
      | some t => pyEqAtom t (.str "collective")
      | none => false
  | _ => false


/-- A concrete stand-in for the host's `str()` used by witnesses: the
identity on strings, a constant elsewhere. -/
def strRep : Value → String
  | .str s => s
  | _ => ""

/-! ## Helper lemmas and verified statements -/


theorem pyEqAtom_str_str (a b : String) :
    pyEqAtom (.str a) (.str b) = decide (a = b) := by
  simp [pyEqAtom]

theorem dInsert_fresh : ∀ (acc : List (Value × Value)) (k v : Value),
    (∀ p ∈ acc, pyEqAtom p.1 k = false) → dInsert acc k v = acc ++ [(k, v)]
  | [], _, _, _ => rfl
  | (k₀, v₀) :: rest, k, v, h => by
      have hk : pyEqAtom k₀ k = false := h (k₀, v₀) (by simp)
      simp only [dInsert, hk, Bool.false_eq_true, if_false, List.cons_append]
      exact congrArg _ (dInsert_fresh rest k v (fun p hp => h p (by simp [hp])))

theorem pairsOf_spec : ∀ (N : Nat) (els : List Node), els.length ≤ N →
    ∀ (acc : List (Value × Value)) (seen : List String),
    (∀ p ∈ acc, ∃ s, p.1 = Value.str s ∧ s ∈ seen) →
    roundTripsPairs els seen = true →
    astToDataPairs els acc = acc ++ pairsOf els := by
  intro N
  induction N with
  | zero =>
      intro els hlen acc seen _ _
      have : els = [] := List.eq_nil_of_length_eq_zero (Nat.le_zero.mp hlen)
      subst this
      simp [astToDataPairs, pairsOf]
  | succ N ih =>
      intro els hlen acc seen hacc hrt
      match els with
      | [] => simp [astToDataPairs, pairsOf]
      | [x] => cases x <;> simp [roundTripsPairs] at hrt
      | n :: v :: rest =>
          cases n <;> simp [roundTripsPairs] at hrt
          case KW k =>
            obtain ⟨⟨hseen, hv⟩, hrest⟩ := hrt
            have hkey : normKey (astToData (Node.KW k)) = Value.str k := by
              simp [astToData, normKey]
            have hfresh : ∀ p ∈ acc, pyEqAtom p.1 (Value.str k) = false := by
              intro p hp
              obtain ⟨s, hps, hs⟩ := hacc p hp
              rw [hps, pyEqAtom_str_str]
              simp only [decide_eq_false_iff_not]
              intro hsk
              subst hsk
              exact hseen hs
            simp only [astToDataPairs, hkey]
            rw [dInsert_fresh acc _ _ hfresh]
            have hlen' : rest.length ≤ N := by
              simp at hlen; omega
            rw [ih rest hlen' (acc ++ [(Value.str k, astToData v)]) (k :: seen)
              (by
                intro p hp
                rcases List.mem_append.mp hp with h1 | h2
                · obtain ⟨s, hps, hs⟩ := hacc p h1
                  exact ⟨s, hps, by simp [hs]⟩
                · simp at h2
                  exact ⟨k, by simp [h2], by simp⟩)
              hrest]
            simp [pairsOf]



theorem list_round : ∀ (els : List Node),
    roundTripsList els = true →
    (∀ v ∈ els, roundTrips v = true → dataToAst (astToData v) = v) →
    dataToAstList (astToDataList els) = els := by
  intro els
  induction els with
  | nil => intro _ _; simp [astToDataList, dataToAstList]
  | cons n rest ihr =>
      intro hrt ih
      simp only [roundTripsList, Bool.and_eq_true] at hrt
      simp only [astToDataList, dataToAstList]
      rw [ih n (by simp) hrt.1, ihr hrt.2 (fun v hv h => ih v (by simp [hv]) h)]

theorem entries_round : ∀ (N : Nat) (els : List Node), els.length ≤ N →
    ∀ (seen : List String),
    roundTripsPairs els seen = true →
    (∀ v ∈ els, roundTrips v = true → dataToAst (astToData v) = v) →
    entriesToNodes (pairsOf els) = els := by
  intro N
  induction N with
  | zero =>
      intro els hlen seen _ _
      have : els = [] := List.eq_nil_of_length_eq_zero (Nat.le_zero.mp hlen)
      subst this
      simp [pairsOf, entriesToNodes]
  | succ N ihN =>
      intro els hlen seen hrt ih
      match els with
      | [] => simp [pairsOf, entriesToNodes]
      | [x] => cases x <;> simp [roundTripsPairs] at hrt
      | n :: v :: rest =>
          cases n <;> simp [roundTripsPairs] at hrt
          case KW k =>
            obtain ⟨⟨hseen, hv⟩, hrest⟩ := hrt
            simp only [pairsOf, entriesToNodes]
            rw [ih v (by simp) hv]
            have hlen' : rest.length ≤ N := by simp at hlen; omega
            rw [ihN rest hlen' (k :: seen) hrest (fun w hw h => ih w (by simp [hw]) h)]



theorem astToData_not_sym (n : Node) (h : headNotSymStr n = true) :
    (∀ s, astToData n ≠ .sym s) ∧ (∀ s, astToData n ≠ .str s) := by
  cases n <;> simp [headNotSymStr] at h ⊢ <;> simp [astToData]

theorem dataToAst_list_fallback (d : Value) (ds : List Value)
    (h1 : ∀ s, d ≠ .sym s) (h2 : ∀ s, d ≠ .str s) :
    dataToAst (.list (d :: ds)) = .LIST (dataToAst d :: dataToAstList ds) := by
  cases d <;> first
    | exact absurd rfl (h1 _)
    | exact absurd rfl (h2 _)
    | simp [dataToAst]



theorem rt_aux : ∀ (N : Nat) (n : Node), sizeOf n ≤ N → roundTrips n = true →
    dataToAst (astToData n) = n := by
  intro N
  induction N with
  | zero => intro n hn _; exfalso; cases n <;> simp_arith at hn
  | succ N ih =>
      intro n hn hrt
      cases n with
      | INT i => simp [astToData, dataToAst]
      | FLOAT f => simp [astToData, dataToAst]
      | STR s => simp [astToData, dataToAst]
      | BOOL b => simp [astToData, dataToAst]
      | NULL => simp [astToData, dataToAst]
      | SYM s => simp [astToData, dataToAst]
      | KW s => simp [astToData, dataToAst]
      | HASH s => simp [astToData, dataToAst]
      | LIST els =>
          have hels : sizeOf els ≤ N := by simp at hn; omega
          have hsize : ∀ v ∈ els, sizeOf v ≤ N := by
            intro v hv
            have := List.sizeOf_lt_of_mem hv
            omega
          match els, hrt, hels, hsize with
          | [], _, _, _ => simp [astToData, astToDataList, dataToAst]
          | h :: rest, hrt, hels, hsize =>
              simp only [roundTrips, Bool.and_eq_true] at hrt
              obtain ⟨⟨hh, hrth⟩, hrtl⟩ := hrt
              simp only [astToData, astToDataList]
              rw [dataToAst_list_fallback _ _ (astToData_not_sym h hh).1
                (astToData_not_sym h hh).2]
              rw [ih h (hsize h (by simp)) hrth]
              rw [list_round rest hrtl (fun v hv hr => ih v (hsize v (by simp [hv])) hr)]
      | SEXPR els =>
          have hsize : ∀ v ∈ els, sizeOf v ≤ N := by
            intro v hv
            have h1 := List.sizeOf_lt_of_mem hv
            simp at hn
            omega
          match els, hrt, hsize with
          | [], hrt, _ => simp [roundTrips] at hrt
          | h :: rest, hrt, hsize =>
              cases h <;> simp [roundTrips] at hrt
              case SYM s =>
                simp only [astToData, astToDataList]
                simp only [dataToAst, dataToAstList]
                rw [list_round rest hrt (fun v hv hr => ih v (hsize v (by simp [hv])) hr)]
      | MAP els =>
          have hsize : ∀ v ∈ els, sizeOf v ≤ N := by
            intro v hv
            have h1 := List.sizeOf_lt_of_mem hv
            simp at hn
            omega
          simp only [roundTrips] at hrt
          simp only [astToData]
          rw [pairsOf_spec els.length els le_rfl [] [] (by simp) hrt]
          simp only [List.nil_append, dataToAst]
          rw [entries_round els.length els le_rfl [] hrt
            (fun v hv hr => ih v (hsize v hv) hr)]
      | QUOTE m => simp [roundTrips] at hrt
      | UNQUOTE m => simp [roundTrips] at hrt
      | SPLICE m => simp [roundTrips] at hrt



/-- C1 (counterexample): the round-trip law fails as stated.  The node
`(quote 1)` — a `Quote` node, containing no `Unquote`/`Splice` — converts
to the data `["quote", 1]`, which `_data_to_ast` reads back as the
*s-expression* `(quote 1)` headed by a symbol: not structurally equal to
the original `Quote` node (and not merely by location tags). -/
theorem C1_counterexample :
    noUS (Node.QUOTE (Node.INT 1)) = true ∧
    dataToAst (astToData (Node.QUOTE (Node.INT 1)))
      = Node.SEXPR [Node.SYM "quote", Node.INT 1] ∧
    Node.SEXPR [Node.SYM "quote", Node.INT 1] ≠ Node.QUOTE (Node.INT 1) := by
  refine ⟨by simp [noUS], ?_, by intro h; exact Node.noConfusion h⟩
  simp [astToData, dataToAst, dataToAstList, strToSym, strToSymList, startsWithColon]

/-- C1 (amended): the round-trip `data_to_ast (ast_to_data n)` is the
structural identity on the class `roundTrips`: atoms (literals, symbols,
keywords, hash-refs); symbol-headed s-expressions; list literals whose
first element is neither a symbol nor a string literal; and map literals
with an even number of elements whose keys are keyword nodes with
pairwise-distinct names — with all children in the class recursively.
`Quote` nodes, `Unquote`/`Splice` nodes, symbol- or string-headed list
literals, non-symbol-headed s-expressions, and maps with string keys or
an odd element count are excluded: on those the conversion re-interprets
or drops structure. -/
theorem C1_roundtrip_amended (n : Node) (h : roundTrips n = true) :
    dataToAst (astToData n) = n :=
  rt_aux (sizeOf n) n le_rfl h

/-- C1 (witness): the amended round-trip theorem applied to the concrete
map-literal node `{:a 1 [2] (f 3)}`. -/
theorem C1_witness :
    roundTrips (Node.MAP [Node.KW "a", Node.INT 1,
      Node.KW "b", Node.SEXPR [Node.SYM "f", Node.INT 3]]) = true ∧
    dataToAst (astToData (Node.MAP [Node.KW "a", Node.INT 1,
      Node.KW "b", Node.SEXPR [Node.SYM "f", Node.INT 3]]))
      = Node.MAP [Node.KW "a", Node.INT 1,
      Node.KW "b", Node.SEXPR [Node.SYM "f", Node.INT 3]] := by
  have h : roundTrips (Node.MAP [Node.KW "a", Node.INT 1,
      Node.KW "b", Node.SEXPR [Node.SYM "f", Node.INT 3]]) = true := by
    simp [roundTrips, roundTripsPairs, roundTripsList, List.contains]
  exact ⟨h, C1_roundtrip_amended _ h⟩



/-- C2 (counterexample): the claim says a `recur` raised inside a function
whose own definition has no enclosing `loop` is *not* intercepted by a
loop that merely appears in the dynamic call chain.  In the program
`(def (f) (recur 99)) (loop [i 0] (if (= i 99) i (f)))` the definition of
`f` mentions no `loop` at all, yet the program evaluates to `99`: the
signal raised inside `f` escaped the call and was caught by the caller's
loop, which rebound `i` to `99` — dynamic, not lexical, interception. -/
theorem C2_counterexample :
    containsSym "loop" (Node.SEXPR [Node.SYM "def", Node.SEXPR [Node.SYM "f"],
      Node.SEXPR [Node.SYM "recur", Node.INT 99]]) = false ∧
    resValue (runProgram 50 recurThroughCallProg) = some (.int 99) := by
  constructor
  · simp [containsSym, containsSymList]
  · rfl

/-- C2 (amended): `recur` evaluates its arguments and raises a non-local
loop-continuation signal carrying the new values; the signal passes
through function application untouched (no stack frame intercepts it) and
is caught by the *nearest dynamically enclosing* `loop` — the innermost
loop currently executing in the call chain, whether or not it lexically
encloses the `recur` — which rebinds its loop names in place in the
existing loop frame (zip-truncating) and re-executes its body; a body
finishing normally ends the loop with that value. -/
theorem C2_loop_recur_amended :
    (∀ (fuel : Nat) (args : List Node) (env : Nat) (st : Store)
        (vs : List Value) (st' : Store),
      evalArgs fuel args env st = .ok vs st' →
      evaluate (fuel + 3) (.SEXPR (.SYM "recur" :: args)) env st
        = .err (.recurSig vs) st') ∧
    (∀ (fuel : Nat) (params : List String) (body : List Node) (cenv : Nat)
        (args : List Value) (st st₁ : Store) (vs : List Value),
      evalSeq fuel body st.length .null
          (st ++ [⟨bindParamsGo params args [], some cenv⟩]) = .err (.recurSig vs) st₁ →
      applyFn (fuel + 1) (.closure params body cenv) args st
        = .err (.recurSig vs) st₁) ∧
    (∀ (fuel : Nat) (body : List Node) (names : List String) (addr : Nat)
        (st st₁ : Store) (vs : List Value),
      evalSeq fuel body addr .null st = .err (.recurSig vs) st₁ →
      loopGo (fuel + 1) body names addr st
        = loopGo fuel body names addr (bindAll addr names vs st₁)) ∧
    (∀ (fuel : Nat) (body : List Node) (names : List String) (addr : Nat)
        (st st₁ : Store) (v : Value),
      evalSeq fuel body addr .null st = .ok v st₁ →
      loopGo (fuel + 1) body names addr st = .ok v st₁) := by
  refine ⟨?_, ?_, ?_, ?_⟩
  · intro fuel args env st vs st' h
    simp only [evaluate, evalSexpr]
    rw [if_pos (show ("recur" ∈ specialNames) by decide)]
    simp only [sfDispatch, h]
  · intro fuel params body cenv args st st₁ vs h
    simp only [applyFn, h]
  · intro fuel body names addr st st₁ vs h
    simp only [loopGo, h]
  · intro fuel body names addr st st₁ v h
    simp only [loopGo, h]

/-- C2 (witness): the amended theorem's recur clause at the concrete form
`(recur 7)` in the default environment. -/
theorem C2_witness :
    evalArgs 2 [Node.INT 7] 0 initStore = .ok [.int 7] initStore ∧
    evaluate 5 (.SEXPR [.SYM "recur", .INT 7]) 0 initStore
      = .err (.recurSig [.int 7]) initStore := by
  have h : evalArgs 2 [Node.INT 7] 0 initStore = .ok [.int 7] initStore := rfl
  exact ⟨h, C2_loop_recur_amended.1 2 [Node.INT 7] 0 initStore [.int 7] initStore h⟩

theorem envSetFrame_get_ne (st : Store) (idx j : Nat) (nm : String) (v : Value)
    (h : j ≠ idx) : (envSetFrame st idx nm v).get? j = st.get? j := by
  unfold envSetFrame
  cases hg : st.get? idx with
  | none => rfl
  | some fr => exact List.get?_set_ne _ _ (Ne.symm h)

theorem envSetFrame_get_eq (st : Store) (idx : Nat) (nm : String) (v : Value) :
    (envSetFrame st idx nm v).get? idx
      = (st.get? idx).map fun fr => ⟨fSet fr.bindings nm v, fr.parent⟩ := by
  unfold envSetFrame
  cases hg : st.get? idx with
  | none => simp only [hg, Option.map_none']
  | some fr =>
      have hlt : idx < st.length := by
        by_contra hge
        rw [List.get?_eq_none.mpr (Nat.le_of_not_lt hge)] at hg
        exact Option.noConfusion hg
      simp only [hg, Option.map_some']
      simp only [List.get?_eq_getElem?]
      exact List.getElem?_set_eq_of_lt _ hlt

/-- C4 (amended): `def` always creates or overwrites its binding in the
*current innermost* frame, never an ancestor: evaluating
`(def name expr)` mutates exactly the current frame (all other frames of
the store are untouched by the binding step), even when the name is
already bound in an ancestor — the new binding shadows rather than
updates it.  (`env_set` writes `env[name] = value` directly; the
chain-walking `env_find` of the source is dead code.) -/
theorem C4_def_amended :
    ∀ (fuel : Nat) (nm : String) (valExpr : Node) (env : Nat)
      (st st' : Store) (v : Value),
      evaluate fuel valExpr env st = .ok v st' →
      evaluate (fuel + 3) (.SEXPR [.SYM "def", .SYM nm, valExpr]) env st
        = .ok v (envSetFrame st' env nm v) ∧
      (∀ j, j ≠ env → (envSetFrame st' env nm v).get? j = st'.get? j) ∧
      ((envSetFrame st' env nm v).get? env
        = (st'.get? env).map fun fr => ⟨fSet fr.bindings nm v, fr.parent⟩) := by
  intro fuel nm valExpr env st st' v h
  refine ⟨?_, fun j hj => envSetFrame_get_ne st' env j nm v hj,
    envSetFrame_get_eq st' env nm v⟩
  simp only [evaluate, evalSexpr]
  rw [if_pos (show ("def" ∈ specialNames) by decide)]
  simp only [sfDispatch, nodeName, h]

/-- C4 (counterexample): with `x` bound only in the parent frame
(lookup from the child finds the ancestor's `x = 1`), evaluating
`(def x 2)` in the child leaves the parent frame untouched — still
`x = 1` — and installs the binding in the child frame, contradicting the
claim that such a `def` updates the frame where the name is first found
on the walk. -/
theorem C4_counterexample :
    envGet [⟨[("x", Value.int 1)], none⟩, ⟨[], some 0⟩] 1 "x" = some (.int 1) ∧
    evaluate 5 (.SEXPR [.SYM "def", .SYM "x", .INT 2]) 1
      [⟨[("x", Value.int 1)], none⟩, ⟨[], some 0⟩]
    = .ok (.int 2) [⟨[("x", Value.int 1)], none⟩, ⟨[("x", Value.int 2)], some 0⟩] := by
  exact ⟨rfl, rfl⟩

/-- C4 (witness): the amended theorem at the concrete form `(def z 7)`
evaluated in a child frame of a two-frame store. -/
theorem C4_witness :
    evaluate 2 (Node.INT 7) 1 [⟨[("y", Value.int 1)], none⟩, ⟨[], some 0⟩]
      = .ok (.int 7) [⟨[("y", Value.int 1)], none⟩, ⟨[], some 0⟩] ∧
    evaluate 5 (.SEXPR [.SYM "def", .SYM "z", .INT 7]) 1
      [⟨[("y", Value.int 1)], none⟩, ⟨[], some 0⟩]
      = .ok (.int 7) (envSetFrame [⟨[("y", Value.int 1)], none⟩, ⟨[], some 0⟩] 1 "z" (.int 7)) := by
  have h : evaluate 2 (Node.INT 7) 1 [⟨[("y", Value.int 1)], none⟩, ⟨[], some 0⟩]
      = .ok (.int 7) [⟨[("y", Value.int 1)], none⟩, ⟨[], some 0⟩] := rfl
  exact ⟨h, (C4_def_amended 2 "z" (Node.INT 7) 1 _ _ _ h).1⟩


/-- C3 (counterexample): the float `0.0` is classified falsy by the
code's `_truthy` (Python `0.0 == 0`), but it is none of the six values —
`Null`, `false`, integer `0`, `""`, `[]`, `{}` — that the claim says are
*exactly* the falsy ones, so "every other value is truthy" fails at
`0.0`. -/
theorem C3_counterexample :
    truthy (.float (.finite 0)) = false ∧ specFalsy (.float (.finite 0)) = false :=
  ⟨rfl, rfl⟩

/-- C3 (amended): `_truthy` classifies exactly `Null`, `false`, numeric
zero — integer `0` *and* float `0.0` — the empty string, the empty list
and the empty map as falsy, and every other value as truthy (negative
numbers, single-space strings, `nan`, infinities included); and an `if`
whose condition evaluates falsy and which has no else branch yields
`Null`. -/
theorem C3_truthiness_amended :
    (∀ v : Value, truthy v = false ↔
      (v = .null ∨ v = .bool false ∨ v = .int 0 ∨ v = .float (.finite 0) ∨
       v = .str "" ∨ v = .list [] ∨ v = .map [])) ∧
    (∀ (fuel : Nat) (condN thenN : Node) (env : Nat) (st st' : Store) (v : Value),
      evaluate fuel condN env st = .ok v st' → truthy v = false →
      evaluate (fuel + 3) (.SEXPR [.SYM "if", condN, thenN]) env st
        = .ok .null st') := by
  constructor
  · intro v
    cases v with
    | null => simp [truthy]
    | bool b => cases b <;> simp [truthy, pyEqFuel, pyEqF]
    | int i => simp [truthy, pyEqFuel, pyEqF]
    | float f => cases f <;> simp [truthy, pyEqFuel, pyEqF]
    | str s => simp [truthy, pyEqFuel, pyEqF]
    | list xs => cases xs <;> simp [truthy, pyEqFuel, pyEqListFuel]
    | map es => cases es <;> simp [truthy, pyEqFuel, pyEqEntriesFuel]
    | closure p b e => simp [truthy, pyEqFuel]
    | macroVal p t e => simp [truthy, pyEqFuel]
    | builtin n => simp [truthy, pyEqFuel]
    | sym s => simp [truthy, pyEqFuel]
    | kw s => simp [truthy, pyEqFuel]
    | hash s => simp [truthy, pyEqFuel]
  · intro fuel condN thenN env st st' v h hf
    simp only [evaluate, evalSexpr]
    rw [if_pos (show ("if" ∈ specialNames) by decide)]
    simp only [sfDispatch, h, hf]
    simp

/-- C3 (witness): the amended theorem's `if` clause at the concrete form
`(if F 1)` in the default environment. -/
theorem C3_witness :
    evaluate 2 (Node.BOOL false) 0 initStore = .ok (.bool false) initStore ∧
    truthy (.bool false) = false ∧
    evaluate 5 (.SEXPR [.SYM "if", .BOOL false, .INT 1]) 0 initStore
      = .ok .null initStore := by
  have h1 : evaluate 2 (Node.BOOL false) 0 initStore = .ok (.bool false) initStore := rfl
  have h2 : truthy (.bool false) = false := rfl
  exact ⟨h1, h2, C3_truthiness_amended.2 2 _ _ 0 _ _ _ h1 h2⟩


/-- C7: `throw` raises a language-level error value; a `try` whose body
evaluation raises a thrown value binds it under the catch clause's name
in one new frame (parented on the `try`'s environment) and evaluates the
handler there; a body failing with any non-thrown outcome — undefined
symbol, not-callable, other runtime errors, or the loop-continuation
signal — propagates through `try` unchanged; a body succeeding passes its
value through. -/
theorem C7_try_throw :
    (∀ (fuel : Nat) (argN : Node) (env : Nat) (st st' : Store) (v : Value),
      evaluate fuel argN env st = .ok v st' →
      evaluate (fuel + 3) (.SEXPR [.SYM "throw", argN]) env st
        = .err (.thrown v) st') ∧
    (∀ (fuel : Nat) (bodyN : Node) (nm : String) (handler : List Node)
        (env : Nat) (st st' : Store) (ev : Value),
      evaluate fuel bodyN env st = .err (.thrown ev) st' →
      evaluate (fuel + 3) (.SEXPR [.SYM "try", bodyN,
          .SEXPR (.SYM "catch" :: .SYM nm :: handler)]) env st
        = evalSeq fuel handler st'.length .null (st' ++ [⟨[(nm, ev)], some env⟩])) ∧
    (∀ (fuel : Nat) (bodyN catchN : Node) (env : Nat) (st st' : Store)
        (e : EvalErr),
      evaluate fuel bodyN env st = .err e st' →
      (∀ v, e ≠ .thrown v) →
      evaluate (fuel + 3) (.SEXPR [.SYM "try", bodyN, catchN]) env st
        = .err e st') ∧
    (∀ (fuel : Nat) (bodyN catchN : Node) (env : Nat) (st st' : Store)
        (v : Value),
      evaluate fuel bodyN env st = .ok v st' →
      evaluate (fuel + 3) (.SEXPR [.SYM "try", bodyN, catchN]) env st
        = .ok v st') := by
  refine ⟨?_, ?_, ?_, ?_⟩
  · intro fuel argN env st st' v h
    simp only [evaluate, evalSexpr]
    rw [if_pos (show ("throw" ∈ specialNames) by decide)]
    simp only [sfDispatch, h]
  · intro fuel bodyN nm handler env st st' ev h
    simp only [evaluate, evalSexpr]
    rw [if_pos (show ("try" ∈ specialNames) by decide)]
    simp only [sfDispatch, h, nodeName]
  · intro fuel bodyN catchN env st st' e h hne
    simp only [evaluate, evalSexpr]
    rw [if_pos (show ("try" ∈ specialNames) by decide)]
    cases e with
    | thrown v => exact absurd rfl (hne v)
    | outOfFuel => simp only [sfDispatch, h]
    | undefinedSymbol s => simp only [sfDispatch, h]
    | notCallable => simp only [sfDispatch, h]
    | runtimeError m => simp only [sfDispatch, h]
    | recurSig vs => simp only [sfDispatch, h]
  · intro fuel bodyN catchN env st st' v h
    simp only [evaluate, evalSexpr]
    rw [if_pos (show ("try" ∈ specialNames) by decide)]
    simp only [sfDispatch, h]

/-- C7 (witness): `(try (throw 5) (catch e e))` — the thrown `5` is bound
to `e` in a fresh frame and the handler evaluates there. -/
theorem C7_witness :
    evaluate 4 (.SEXPR [.SYM "throw", .INT 5]) 0 initStore
      = .err (.thrown (.int 5)) initStore ∧
    evaluate 7 (.SEXPR [.SYM "try", .SEXPR [.SYM "throw", .INT 5],
        .SEXPR [.SYM "catch", .SYM "e", .SYM "e"]]) 0 initStore
      = evalSeq 4 [Node.SYM "e"] initStore.length .null
          (initStore ++ [⟨[("e", .int 5)], some 0⟩]) := by
  have h0 : evaluate 2 (Node.INT 5) 0 initStore = .ok (.int 5) initStore := rfl
  have h1 := C7_try_throw.1 2 (Node.INT 5) 0 initStore initStore (.int 5) h0
  exact ⟨h1, C7_try_throw.2.1 4 (.SEXPR [.SYM "throw", .INT 5]) "e" [Node.SYM "e"]
    0 initStore initStore (.int 5) (by exact h1)⟩


theorem evalMapElems_dropLast : ∀ (fuel : Nat) (els : List Node) (env : Nat)
    (acc : List (Value × Value)) (st : Store), els.length % 2 = 1 →
    evalMapElems fuel els env acc st = evalMapElems fuel els.dropLast env acc st := by
  intro fuel
  induction fuel with
  | zero => intro els env acc st _; rfl
  | succ fuel ih =>
      intro els env acc st hodd
      match els with
      | [] => simp at hodd
      | [x] => rfl
      | k :: v :: rest =>
          have hrest : rest.length % 2 = 1 := by
            simp [List.length_cons] at hodd ⊢
            omega
          have hne : rest ≠ [] := by
            intro h
            subst h
            simp at hrest
          have hdl : (k :: v :: rest).dropLast = k :: v :: rest.dropLast := by
            match rest, hne with
            | r :: rs, _ => simp [List.dropLast]
          rw [hdl]
          simp only [evalMapElems]
          cases evaluate fuel k env st with
          | err e st' => rfl
          | ok kv st' =>
              dsimp only
              cases evaluate fuel v env st' with
              | err e st'' => rfl
              | ok vv st'' => exact ih rest env (dInsert acc (normKey kv) vv) st'' hrest

/-- C8: a map literal with an odd number of elements evaluates exactly
like the literal with the final unpaired element removed — the same
value and the same store — so the trailing element is silently ignored,
never evaluated, and causes no failure; the result is the map of the
preceding complete pairs. -/
theorem C8_odd_map_ignored (fuel : Nat) (els : List Node) (env : Nat) (st : Store)
    (hodd : els.length % 2 = 1) :
    evaluate (fuel + 1) (.MAP els) env st
      = evaluate (fuel + 1) (.MAP els.dropLast) env st := by
  simp only [evaluate]
  rw [evalMapElems_dropLast fuel els env [] st hodd]

/-- C8 (witness): `{:a 1 boom}` — the unpaired `boom` is an *undefined
symbol*, whose evaluation would fail, yet the literal evaluates to
`{a: 1}` exactly like `{:a 1}`. -/
theorem C8_witness :
    ([Node.KW "a", Node.INT 1, Node.SYM "boom"].length % 2 = 1) ∧
    evaluate 10 (.MAP [Node.KW "a", Node.INT 1, Node.SYM "boom"]) 0 initStore
      = evaluate 10 (.MAP [Node.KW "a", Node.INT 1]) 0 initStore ∧
    evaluate 10 (.MAP [Node.KW "a", Node.INT 1, Node.SYM "boom"]) 0 initStore
      = .ok (.map [(.str "a", .int 1)]) initStore := by
  refine ⟨by decide, ?_, by rfl⟩
  exact C8_odd_map_ignored 9 [Node.KW "a", Node.INT 1, Node.SYM "boom"] 0 initStore
    (by decide)


theorem pyEqZero_numEq (b : Value) (y : Num) (h : asNum b = some y) :
    pyEqFuel 3 b (.int 0) = numEq y (.i 0) := by
  cases b with
  | int n =>
      simp [asNum] at h
      subst h
      simp [pyEqFuel, numEq]
  | bool bb =>
      simp [asNum] at h
      subst h
      cases bb <;> simp [pyEqFuel, numEq, numF, pyEqF]
  | float f =>
      simp [asNum] at h
      subst h
      simp [pyEqFuel, numEq, numF]
  | null => simp [asNum] at h
  | str s => simp [asNum] at h
  | sym s => simp [asNum] at h
  | kw s => simp [asNum] at h
  | hash s => simp [asNum] at h
  | list xs => simp [asNum] at h
  | map es => simp [asNum] at h
  | closure p bo e => simp [asNum] at h
  | macroVal p t e => simp [asNum] at h
  | builtin n => simp [asNum] at h

/-- C9: the `"/"` builtin is total on numeric arguments: when the divisor
compares `== 0` (integer `0`, float `0.0`, `False`) it returns the float
infinity instead of raising a division error, and otherwise it returns
the host quotient `a / b` (always a float; exact rationals stand in for
the host's doubles).  In both cases an `ok` value exists — no error is
possible for numeric operands. -/
theorem C9_div_total :
    ∀ (fuel : Nat) (a b : Value) (x y : Num),
      asNum a = some x → asNum b = some y →
      (pyEqFuel 3 b (.int 0) = true →
        applyBuiltin fuel "/" [a, b] = .ok (.float .posInf)) ∧
      (pyEqFuel 3 b (.int 0) = false →
        applyBuiltin fuel "/" [a, b] = .ok (.float (divF (numF x) (numF y)))) ∧
      (∃ v, applyBuiltin fuel "/" [a, b] = .ok v) := by
  intro fuel a b x y hx hy
  have hdiv : applyBuiltin fuel "/" [a, b] = divOp a b := by
    cases fuel <;> simp [applyBuiltin, arithFold, List.foldlM]
  refine ⟨?_, ?_, ?_⟩
  · intro hz
    rw [hdiv]
    simp [divOp, hz]
  · intro hz
    rw [hdiv]
    have hne : numEq y (.i 0) = false := by rw [← pyEqZero_numEq b y hy]; exact hz
    simp [divOp, hz, rawDiv, hx, hy, hne]
  · by_cases hz : pyEqFuel 3 b (.int 0) = true
    · refine ⟨.float .posInf, ?_⟩
      rw [hdiv]
      simp [divOp, hz]
    · have hz' : pyEqFuel 3 b (.int 0) = false := by
        cases hb : pyEqFuel 3 b (.int 0)
        · rfl
        · exact absurd hb hz
      refine ⟨.float (divF (numF x) (numF y)), ?_⟩
      rw [hdiv]
      have hne : numEq y (.i 0) = false := by rw [← pyEqZero_numEq b y hy]; exact hz'
      simp [divOp, hz', rawDiv, hx, hy, hne]

/-- C9 (witness): `(/ 1 0)` yields the infinity value and `(/ 1 2)`
yields the float `1/2`. -/
theorem C9_witness :
    asNum (.int 1) = some (.i 1) ∧ asNum (.int 0) = some (.i 0) ∧
    pyEqFuel 3 (.int 0) (.int 0) = true ∧
    applyBuiltin 0 "/" [.int 1, .int 0] = .ok (.float .posInf) ∧
    asNum (.int 2) = some (.i 2) ∧ pyEqFuel 3 (.int 2) (.int 0) = false ∧
    applyBuiltin 0 "/" [.int 1, .int 2]
      = .ok (.float (.finite ((1 : ℚ) / 2))) := by
  refine ⟨rfl, rfl, rfl, ?_, rfl, rfl, ?_⟩
  · exact (C9_div_total 0 (.int 1) (.int 0) (.i 1) (.i 0) rfl rfl).1 rfl
  · have h := (C9_div_total 0 (.int 1) (.int 2) (.i 1) (.i 2) rfl rfl).2.1 rfl
    simpa [numF, divF] using h



/-- C10: cell creation is deterministic in the initial state — the id is
exactly the content hash of the state's string representation, with no
per-call counter or nonce, so two `cell(state)` calls whose evaluated
states have equal string representations (in particular, two distinct
states that print alike) yield the same id: cell ids do not uniquely
identify distinct cells. -/
theorem C10_cell_id_deterministic :
    ∀ (pyStr : Value → String) (hashFn : String → String) (s₁ s₂ : Value),
      pyStr s₁ = pyStr s₂ →
      pyGet (cellCore pyStr hashFn s₁) "id" = some (.str (hashFn (pyStr s₁))) ∧
      pyGet (cellCore pyStr hashFn s₂) "id" = some (.str (hashFn (pyStr s₁))) ∧
      pyGet (cellCore pyStr hashFn s₁) "id"
        = pyGet (cellCore pyStr hashFn s₂) "id" := by
  intro pyStr hashFn s₁ s₂ h
  refine ⟨?_, ?_, ?_⟩ <;> simp [pyGet, cellCore, pyFind, pyEqAtom, h]

/-- C10 (witness): with a string representation that collapses the two
distinct states `1` and `2`, both cells carry the same id. -/
theorem C10_witness :
    (Value.int 1 ≠ Value.int 2) ∧
    pyGet (cellCore (fun _ => "s") (fun h => h) (.int 1)) "id"
      = pyGet (cellCore (fun _ => "s") (fun h => h) (.int 2)) "id" := by
  refine ⟨by simp, ?_⟩
  exact (C10_cell_id_deterministic (fun _ => "s") (fun h => h)
    (.int 1) (.int 2) rfl).2.2

theorem fLookup_fSet_eq : ∀ (b : List (String × Value)) (k : String) (v : Value),
    fLookup (fSet b k v) k = some v
  | [], k, v => by simp [fSet, fLookup]
  | (k₀, v₀) :: rest, k, v => by
      by_cases h : k₀ = k
      · subst h
        simp [fSet, fLookup]
      · simp only [fSet, if_neg h, fLookup]
        exact fLookup_fSet_eq rest k v

theorem fLookup_fSet_ne : ∀ (b : List (String × Value)) (k nm : String) (v : Value),
    nm ≠ k → fLookup (fSet b k v) nm = fLookup b nm
  | [], k, nm, v, h => by simp [fSet, fLookup, if_neg (Ne.symm h)]
  | (k₀, v₀) :: rest, k, nm, v, h => by
      by_cases h₀ : k₀ = k
      · subst h₀
        simp [fSet, fLookup, if_neg (Ne.symm h)]
      · simp only [fSet, if_neg h₀, fLookup]
        by_cases h₁ : k₀ = nm
        · simp [h₁]
        · rw [if_neg h₁, if_neg h₁]
          exact fLookup_fSet_ne rest k nm v h

theorem bindParamsGo_skip : ∀ (ps : List String) (args : List Value)
    (b : List (String × Value)) (nm : String), nm ∉ ps →
    fLookup (bindParamsGo ps args b) nm = fLookup b nm := by
  intro ps
  induction ps with
  | nil => intro args b nm _; rfl
  | cons p rest ih =>
      intro args b nm hnm
      have hnp : nm ≠ p := fun h => hnm (h ▸ List.mem_cons_self p rest)
      have hnrest : nm ∉ rest := fun h => hnm (List.mem_cons_of_mem p h)
      by_cases hp : p = "&"
      · subst hp
        match rest, hnrest with
        | [], _ => rfl
        | r :: rs, hnrest =>
            have hnr : nm ≠ r := fun h => hnrest (h ▸ List.mem_cons_self r rs)
            simp only [bindParamsGo, if_pos rfl]
            exact fLookup_fSet_ne b r nm _ hnr
      · simp only [bindParamsGo, if_neg hp]
        match args with
        | [] => rw [ih [] (fSet b p .null) nm hnrest,
                    fLookup_fSet_ne b p nm _ hnp]
        | a :: as => rw [ih as (fSet b p a) nm hnrest,
                         fLookup_fSet_ne b p nm _ hnp]

theorem bindParamsGo_pos : ∀ (ps : List String) (args : List Value)
    (b : List (String × Value)) (i : Nat) (nm : String),
    "&" ∉ ps → ps.Nodup → ps.get? i = some nm →
    fLookup (bindParamsGo ps args b) nm = some ((args.get? i).getD .null) := by
  intro ps
  induction ps with
  | nil => intro args b i nm _ _ h; simp at h
  | cons p rest ih =>
      intro args b i nm hamp hnd hget
      have hp : p ≠ "&" := fun h => hamp (h ▸ List.mem_cons_self p rest)
      have hampr : "&" ∉ rest := fun h => hamp (List.mem_cons_of_mem p h)
      have hndr : rest.Nodup := (List.nodup_cons.mp hnd).2
      have hpnr : p ∉ rest := (List.nodup_cons.mp hnd).1
      match i, hget with
      | 0, hget =>
          simp only [List.get?] at hget
          injection hget with hget
          subst hget
          match args with
          | [] =>
              simp only [bindParamsGo, if_neg hp]
              rw [bindParamsGo_skip rest [] _ _ hpnr, fLookup_fSet_eq]
              rfl
          | a :: as =>
              simp only [bindParamsGo, if_neg hp]
              rw [bindParamsGo_skip rest as _ _ hpnr, fLookup_fSet_eq]
              rfl
      | i+1, hget =>
          simp only [List.get?] at hget
          match args with
          | [] =>
              simp only [bindParamsGo, if_neg hp]
              rw [ih [] (fSet b p .null) i nm hampr hndr hget]
              rfl
          | a :: as =>
              simp only [bindParamsGo, if_neg hp]
              rw [ih as (fSet b p a) i nm hampr hndr hget]
              rfl

theorem bindParamsGo_rest : ∀ (ps : List String) (r : String) (args : List Value)
    (b : List (String × Value)),
    "&" ∉ ps → r ∉ ps → ps.Nodup →
    (∀ (i : Nat) (nm : String), ps.get? i = some nm →
      fLookup (bindParamsGo (ps ++ ["&", r]) args b) nm
        = some ((args.get? i).getD .null)) ∧
    fLookup (bindParamsGo (ps ++ ["&", r]) args b) r
      = some (.list (args.drop ps.length)) := by
  intro ps
  induction ps with
  | nil =>
      intro r args b _ _ _
      constructor
      · intro i nm h; simp at h
      · simp only [List.nil_append, bindParamsGo, if_pos rfl]
        simp [fLookup_fSet_eq]
  | cons p rest ih =>
      intro r args b hamp hr hnd
      have hp : p ≠ "&" := fun h => hamp (h ▸ List.mem_cons_self p rest)
      have hampr : "&" ∉ rest := fun h => hamp (List.mem_cons_of_mem p h)
      have hrp : r ≠ p := fun h => hr (h ▸ List.mem_cons_self p rest)
      have hrr : r ∉ rest := fun h => hr (List.mem_cons_of_mem p h)
      have hndr : rest.Nodup := (List.nodup_cons.mp hnd).2
      have hpnr : p ∉ rest := (List.nodup_cons.mp hnd).1
      have hpnotin : p ∉ rest ++ ["&", r] := by
        intro h
        rcases List.mem_append.mp h with h1 | h2
        · exact hpnr h1
        · simp at h2
          rcases h2 with h2 | h2
          · exact hp h2
          · exact hrp h2.symm
      match args with
      | [] =>
          obtain ⟨ihpos, ihrest⟩ := ih r [] (fSet b p .null) hampr hrr hndr
          constructor
          · intro i nm hget
            match i, hget with
            | 0, hget =>
                simp only [List.get?] at hget
                injection hget with hget
                subst hget
                simp only [List.cons_append, bindParamsGo, if_neg hp, List.append_eq]
                rw [bindParamsGo_skip (rest ++ ["&", r]) [] _ _ hpnotin,
                    fLookup_fSet_eq]
                rfl
            | i+1, hget =>
                simp only [List.get?] at hget
                simp only [List.cons_append, bindParamsGo, if_neg hp, List.append_eq]
                rw [ihpos i nm hget]
                rfl
          · simp only [List.cons_append, bindParamsGo, if_neg hp, List.append_eq]
            rw [ihrest]
            simp
      | a :: as =>
          obtain ⟨ihpos, ihrest⟩ := ih r as (fSet b p a) hampr hrr hndr
          constructor
          · intro i nm hget
            match i, hget with
            | 0, hget =>
                simp only [List.get?] at hget
                injection hget with hget
                subst hget
                simp only [List.cons_append, bindParamsGo, if_neg hp, List.append_eq]
                rw [bindParamsGo_skip (rest ++ ["&", r]) as _ _ hpnotin,
                    fLookup_fSet_eq]
                rfl
            | i+1, hget =>
                simp only [List.get?] at hget
                simp only [List.cons_append, bindParamsGo, if_neg hp, List.append_eq]
                rw [ihpos i nm hget]
                rfl
          · simp only [List.cons_append, bindParamsGo, if_neg hp, List.append_eq]
            rw [ihrest]
            rfl



/-- C5: applying a closure creates exactly one new child frame over the
closure's captured environment (the appended frame's parent is `cenv`)
and evaluates the body there in sequence, the last expression's value
being the application's; the frame's bindings are positional —
parameter `i` is bound to argument `i`, or to `Null` when there are
fewer arguments (no arity error) — and a parameter list ending in the
rest-marker `&` followed by a name binds that name to the list of all
remaining arguments. -/
theorem C5_closure_apply :
    (∀ (fuel : Nat) (params : List String) (body : List Node) (cenv : Nat)
        (args : List Value) (st : Store),
      applyFn (fuel + 1) (.closure params body cenv) args st
        = evalSeq fuel body st.length .null
            (st ++ [⟨bindParamsGo params args [], some cenv⟩])) ∧
    (∀ (params : List String) (args : List Value) (i : Nat) (nm : String),
      "&" ∉ params → params.Nodup → params.get? i = some nm →
      fLookup (bindParamsGo params args []) nm
        = some ((args.get? i).getD .null)) ∧
    (∀ (ps : List String) (r : String) (args : List Value),
      "&" ∉ ps → r ∉ ps → ps.Nodup →
      (∀ (i : Nat) (nm : String), ps.get? i = some nm →
        fLookup (bindParamsGo (ps ++ ["&", r]) args []) nm
          = some ((args.get? i).getD .null)) ∧
      fLookup (bindParamsGo (ps ++ ["&", r]) args []) r
        = some (.list (args.drop ps.length))) := by
  refine ⟨?_, ?_, ?_⟩
  · intro fuel params body cenv args st
    rfl
  · intro params args i nm h1 h2 h3
    exact bindParamsGo_pos params args [] i nm h1 h2 h3
  · intro ps r args h1 h2 h3
    exact bindParamsGo_rest ps r args [] h1 h2 h3

/-- C5 (witness): applying `(fn [x y] x)` to the single argument `5`
binds `x` to `5` and `y` to `Null` in the one new frame; binding
`[x & r]` against `1 2 3` puts `1` in `x` and `[2 3]` in `r`. -/
theorem C5_witness :
    applyFn 10 (.closure ["x", "y"] [Node.SYM "x"] 0) [.int 5] initStore
      = evalSeq 9 [Node.SYM "x"] initStore.length .null
          (initStore ++ [⟨bindParamsGo ["x", "y"] [.int 5] [], some 0⟩]) ∧
    fLookup (bindParamsGo ["x", "y"] [.int 5] []) "x" = some (.int 5) ∧
    fLookup (bindParamsGo ["x", "y"] [.int 5] []) "y" = some .null ∧
    fLookup (bindParamsGo ["x", "&", "r"] [.int 1, .int 2, .int 3] []) "x"
      = some (.int 1) ∧
    fLookup (bindParamsGo ["x", "&", "r"] [.int 1, .int 2, .int 3] []) "r"
      = some (.list [.int 2, .int 3]) := by
  refine ⟨C5_closure_apply.1 9 _ _ _ _ _, ?_, ?_, ?_, ?_⟩
  · exact C5_closure_apply.2.1 ["x", "y"] [.int 5] 0 "x" (by simp) (by simp) rfl
  · exact C5_closure_apply.2.1 ["x", "y"] [.int 5] 1 "y" (by simp) (by simp) rfl
  · exact (C5_closure_apply.2.2 ["x"] "r" [.int 1, .int 2, .int 3]
      (by simp) (by simp) (by simp)).1 0 "x" rfl
  · exact (C5_closure_apply.2.2 ["x"] "r" [.int 1, .int 2, .int 3]
      (by simp) (by simp) (by simp)).2


theorem lookupCnt_bumpCount : ∀ (c : List (String × Nat)) (key s : String),
    lookupCnt (bumpCount c key) s
      = if key = s then lookupCnt c s + 1 else lookupCnt c s := by
  intro c
  induction c with
  | nil =>
      intro key s
      by_cases h : key = s <;> simp [bumpCount, lookupCnt, h]
  | cons p rest ih =>
      intro key s
      obtain ⟨k, cv⟩ := p
      by_cases hk : k = key
      · subst hk
        by_cases hs : k = s
        · subst hs
          simp [bumpCount, lookupCnt]
        · simp [bumpCount, lookupCnt, hs, fun h => hs h]
      · by_cases hs : k = s
        · subst hs
          simp [bumpCount, lookupCnt, hk, Ne.symm hk]
        · simp [bumpCount, lookupCnt, hk, hs, ih]

theorem lookupCnt_buildCounts (pyStr : Value → String) :
    ∀ (vs : List Value) (c : List (String × Nat)) (s : String),
    lookupCnt (buildCounts pyStr vs c) s = lookupCnt c s + cntStr pyStr vs s := by
  intro vs
  induction vs with
  | nil => intro c s; simp [buildCounts, cntStr]
  | cons v rest ih =>
      intro c s
      simp only [buildCounts]
      rw [ih]
      rw [lookupCnt_bumpCount]
      by_cases h : pyStr v = s
      · simp [cntStr, h, List.filter]
        omega
      · simp [cntStr, h, List.filter]



theorem keys_bumpCount : ∀ (c : List (String × Nat)) (key : String),
    (bumpCount c key).map Prod.fst
      = if key ∈ c.map Prod.fst then c.map Prod.fst else c.map Prod.fst ++ [key] := by
  intro c
  induction c with
  | nil => intro key; simp [bumpCount]
  | cons p rest ih =>
      intro key
      obtain ⟨k, cv⟩ := p
      by_cases hk : k = key
      · subst hk
        simp [bumpCount]
      · simp only [bumpCount, if_neg hk, List.map_cons, List.mem_cons]
        rw [ih key]
        by_cases hmem : key ∈ rest.map Prod.fst
        · simp [hmem, Ne.symm hk]
        · simp [hmem, Ne.symm hk]

theorem buildCounts_append (pyStr : Value → String) :
    ∀ (xs ys : List Value) (c : List (String × Nat)),
    buildCounts pyStr (xs ++ ys) c = buildCounts pyStr ys (buildCounts pyStr xs c) := by
  intro xs
  induction xs with
  | nil => intro ys c; rfl
  | cons x rest ih =>
      intro ys c
      simp only [List.cons_append, buildCounts, List.append_eq]
      rw [ih]

theorem mem_keys_buildCounts (pyStr : Value → String) :
    ∀ (vs : List Value) (c : List (String × Nat)) (s : String),
    s ∈ (buildCounts pyStr vs c).map Prod.fst
      ↔ s ∈ c.map Prod.fst ∨ s ∈ vs.map pyStr := by
  intro vs
  induction vs with
  | nil => intro c s; simp [buildCounts]
  | cons v rest ih =>
      intro c s
      simp only [buildCounts, List.map_cons, List.mem_cons]
      rw [ih]
      rw [keys_bumpCount]
      by_cases hmem : pyStr v ∈ c.map Prod.fst
      · rw [if_pos hmem]
        constructor
        · intro h
          rcases h with h | h
          · exact Or.inl h
          · exact Or.inr (Or.inr h)
        · intro h
          rcases h with h | h | h
          · exact Or.inl h
          · exact Or.inl (by rw [h]; exact hmem)
          · exact Or.inr h
      · rw [if_neg hmem]
        constructor
        · intro h
          rcases h with h | h
          · rcases List.mem_append.mp h with h1 | h1
            · exact Or.inl h1
            · exact Or.inr (Or.inl (List.mem_singleton.mp h1))
          · exact Or.inr (Or.inr h)
        · intro h
          rcases h with h | h | h
          · exact Or.inl (List.mem_append.mpr (Or.inl h))
          · exact Or.inl (List.mem_append.mpr (Or.inr (List.mem_singleton.mpr h)))
          · exact Or.inr h

theorem lookupCnt_mem : ∀ (c : List (String × Nat)) (s : String),
    s ∈ c.map Prod.fst → (s, lookupCnt c s) ∈ c := by
  intro c
  induction c with
  | nil => intro s h; simp at h
  | cons p rest ih =>
      intro s h
      obtain ⟨k, cv⟩ := p
      by_cases hk : k = s
      · subst hk
        simp [lookupCnt]
      · simp only [List.map_cons, List.mem_cons] at h
        rcases h with h | h
        · exact absurd h.symm hk
        · simp only [lookupCnt, if_neg hk]
          exact List.mem_cons_of_mem _ (ih s h)

theorem mem_lookupCnt : ∀ (c : List (String × Nat)) (s : String) (cv : Nat),
    (c.map Prod.fst).Nodup → (s, cv) ∈ c → lookupCnt c s = cv := by
  intro c
  induction c with
  | nil => intro s cv _ h; simp at h
  | cons p rest ih =>
      intro s cv hnd h
      obtain ⟨k, kv⟩ := p
      simp only [List.map_cons, List.nodup_cons] at hnd
      rcases List.mem_cons.mp h with h | h
      · injection h with h1 h2
        subst h1; subst h2
        simp [lookupCnt]
      · have hks : k ≠ s := by
          intro hk
          subst hk
          exact hnd.1 (List.mem_map.mpr ⟨(k, cv), h, rfl⟩)
        simp only [lookupCnt, if_neg hks]
        exact ih s cv hnd.2 h



theorem keysNodup_bumpCount (c : List (String × Nat)) (key : String)
    (h : (c.map Prod.fst).Nodup) : ((bumpCount c key).map Prod.fst).Nodup := by
  rw [keys_bumpCount]
  by_cases hmem : key ∈ c.map Prod.fst
  · rw [if_pos hmem]; exact h
  · rw [if_neg hmem]
    refine List.Nodup.append h (List.nodup_singleton key) ?_
    intro a ha hb
    rw [List.mem_singleton] at hb
    subst hb
    exact hmem ha

theorem keysNodup_buildCounts (pyStr : Value → String) :
    ∀ (vs : List Value) (c : List (String × Nat)),
    (c.map Prod.fst).Nodup → ((buildCounts pyStr vs c).map Prod.fst).Nodup := by
  intro vs
  induction vs with
  | nil => intro c h; exact h
  | cons v rest ih =>
      intro c h
      exact ih _ (keysNodup_bumpCount c (pyStr v) h)

theorem foIdx_le_of_get (pyStr : Value → String) :
    ∀ (vs : List Value) (j : Nat) (u : Value),
    vs.get? j = some u → foIdx pyStr vs (pyStr u) ≤ j := by
  intro vs
  induction vs with
  | nil => intro j u h; simp at h
  | cons v rest ih =>
      intro j u h
      match j, h with
      | 0, h =>
          injection h with h
          subst h
          simp [foIdx]
      | j+1, h =>
          simp only [List.get?] at h
          by_cases hv : pyStr v = pyStr u
          · simp [foIdx, hv]
          · simp only [foIdx, if_neg hv]
            have := ih j u h
            omega

theorem foIdx_eq_of_first (pyStr : Value → String) :
    ∀ (vs : List Value) (i : Nat) (ch : Value),
    vs.get? i = some ch →
    (∀ j, j < i → ∀ u, vs.get? j = some u → pyStr u ≠ pyStr ch) →
    foIdx pyStr vs (pyStr ch) = i := by
  intro vs
  induction vs with
  | nil => intro i ch h _; simp at h
  | cons v rest ih =>
      intro i ch h hfirst
      match i, h with
      | 0, h =>
          injection h with h
          subst h
          simp [foIdx]
      | i+1, h =>
          simp only [List.get?] at h
          have hv : pyStr v ≠ pyStr ch :=
            hfirst 0 (Nat.succ_pos i) v rfl
          simp only [foIdx, if_neg hv]
          rw [ih i ch h (fun j hj u hu => hfirst (j+1) (Nat.succ_lt_succ hj) u hu)]

theorem foIdx_lt_of_mem (pyStr : Value → String) :
    ∀ (pre rest : List Value) (s : String),
    s ∈ pre.map pyStr → foIdx pyStr (pre ++ rest) s < pre.length := by
  intro pre
  induction pre with
  | nil => intro rest s h; simp at h
  | cons v pr ih =>
      intro rest s h
      by_cases hv : pyStr v = s
      · simp [foIdx, hv]
      · simp only [List.map_cons, List.mem_cons] at h
        rcases h with h | h
        · exact absurd h.symm hv
        · simp only [List.cons_append, foIdx, if_neg hv, List.length_cons]
          exact Nat.succ_lt_succ (ih rest s h)

theorem foIdx_ge_of_not_mem (pyStr : Value → String) :
    ∀ (pre rest : List Value) (s : String),
    s ∉ pre.map pyStr → pre.length ≤ foIdx pyStr (pre ++ rest) s := by
  intro pre
  induction pre with
  | nil => intro rest s _; simp
  | cons v pr ih =>
      intro rest s h
      have hv : pyStr v ≠ s := fun hh => h (by simp [hh])
      have hpr : s ∉ pr.map pyStr := fun hh => h (by simp [hh])
      simp only [List.cons_append, foIdx, if_neg hv, List.length_cons]
      exact Nat.succ_le_succ (ih rest s hpr)



theorem buildCounts_keys_ord (pyStr : Value → String) (u : List Value) :
    ∀ (suf pre : List Value), u = pre ++ suf →
    ((buildCounts pyStr pre []).map Prod.fst).Pairwise
      (fun a b => foIdx pyStr u a < foIdx pyStr u b) →
    (∀ s, s ∈ (buildCounts pyStr pre []).map Prod.fst ↔ s ∈ pre.map pyStr) →
    ((buildCounts pyStr u []).map Prod.fst).Pairwise
      (fun a b => foIdx pyStr u a < foIdx pyStr u b) := by
  intro suf
  induction suf with
  | nil =>
      intro pre hu hp _
      rw [hu, List.append_nil]
      rw [hu, List.append_nil] at hp
      exact hp
  | cons v suf' ih =>
      intro pre hu hp hk
      have hstep : buildCounts pyStr (pre ++ [v]) []
          = bumpCount (buildCounts pyStr pre []) (pyStr v) := by
        rw [buildCounts_append]
        rfl
      apply ih (pre ++ [v])
      · rw [hu, List.append_assoc]
        rfl
      · rw [hstep, keys_bumpCount]
        by_cases hmem : pyStr v ∈ (buildCounts pyStr pre []).map Prod.fst
        · rw [if_pos hmem]
          exact hp
        · rw [if_neg hmem]
          rw [List.pairwise_append]
          refine ⟨hp, List.pairwise_singleton _ _, ?_⟩
          intro a ha b hb
          rw [List.mem_singleton] at hb
          subst hb
          have ha' : a ∈ pre.map pyStr := (hk a).mp ha
          have hvnot : pyStr v ∉ pre.map pyStr := fun hh => hmem ((hk _).mpr hh)
          have h1 : foIdx pyStr u a < pre.length := by
            rw [hu]
            exact foIdx_lt_of_mem pyStr pre (v :: suf') a ha'
          have h2 : pre.length ≤ foIdx pyStr u (pyStr v) := by
            rw [hu]
            exact foIdx_ge_of_not_mem pyStr pre (v :: suf') (pyStr v) hvnot
          omega
      · intro s
        rw [hstep, keys_bumpCount]
        by_cases hmem : pyStr v ∈ (buildCounts pyStr pre []).map Prod.fst
        · rw [if_pos hmem]
          rw [hk s]
          simp only [List.map_append, List.mem_append, List.map_cons, List.map_nil,
            List.mem_singleton, List.mem_cons]
          constructor
          · intro h; exact Or.inl h
          · intro h
            rcases h with h | h
            · exact h
            · simp at h
              rw [h]
              exact (hk _).mp hmem
        · rw [if_neg hmem]
          simp only [List.mem_append, List.mem_singleton, List.map_append,
            List.map_cons, List.map_nil]
          rw [hk s]



theorem maxKeyGo_spec : ∀ (rest : List (String × Nat)) (best : String) (bc : Nat),
    (maxKeyGo best bc rest = best ∧ ∀ p ∈ rest, p.2 ≤ bc) ∨
    (∃ i cw, rest.get? i = some (maxKeyGo best bc rest, cw) ∧ bc < cw ∧
      (∀ p ∈ rest, p.2 ≤ cw) ∧
      (∀ j, j < i → ∀ p, rest.get? j = some p → p.2 < cw)) := by
  intro rest
  induction rest with
  | nil => intro best bc; exact Or.inl ⟨rfl, by simp⟩
  | cons p rest' ih =>
      intro best bc
      obtain ⟨k, c⟩ := p
      by_cases hc : bc < c
      · have hgo : maxKeyGo best bc ((k, c) :: rest') = maxKeyGo k c rest' := by
          simp [maxKeyGo, hc]
        rcases ih k c with ⟨hw, hall⟩ | ⟨i, cw, hget, hbc, hall, hearly⟩
        · refine Or.inr ⟨0, c, ?_, hc, ?_, ?_⟩
          · rw [hgo, hw]
            rfl
          · intro q hq
            rcases List.mem_cons.mp hq with h | h
            · rw [h]
            · exact hall q h
          · intro j hj q hq
            omega
        · refine Or.inr ⟨i + 1, cw, ?_, ?_, ?_, ?_⟩
          · rw [hgo]
            exact hget
          · omega
          · intro q hq
            rcases List.mem_cons.mp hq with h | h
            · rw [h]; simp; omega
            · exact hall q h
          · intro j hj q hq
            match j, hq with
            | 0, hq =>
                injection hq with hq
                rw [← hq]
                simp
                omega
            | j+1, hq =>
                exact hearly j (by omega) q hq
      · have hgo : maxKeyGo best bc ((k, c) :: rest') = maxKeyGo best bc rest' := by
          simp [maxKeyGo, hc]
        rcases ih best bc with ⟨hw, hall⟩ | ⟨i, cw, hget, hbc, hall, hearly⟩
        · refine Or.inl ⟨by rw [hgo, hw], ?_⟩
          intro q hq
          rcases List.mem_cons.mp hq with h | h
          · rw [h]; simpa using Nat.le_of_not_lt hc
          · exact hall q h
        · refine Or.inr ⟨i + 1, cw, ?_, hbc, ?_, ?_⟩
          · rw [hgo]
            exact hget
          · intro q hq
            rcases List.mem_cons.mp hq with h | h
            · rw [h]
              simp
              omega
            · exact hall q h
          · intro j hj q hq
            match j, hq with
            | 0, hq =>
                injection hq with hq
                rw [← hq]
                simp
                omega
            | j+1, hq =>
                exact hearly j (by omega) q hq

theorem maxKey_spec : ∀ (c : List (String × Nat)) (w : String),
    maxKey c = some w →
    ∃ (iw cw : Nat), c.get? iw = some (w, cw) ∧
      (∀ p ∈ c, p.2 ≤ cw) ∧
      (∀ j, j < iw → ∀ p, c.get? j = some p → p.2 < cw) := by
  intro c w h
  match c, h with
  | (k, cv) :: rest, h =>
      simp only [maxKey] at h
      injection h with h
      rcases maxKeyGo_spec rest k cv with ⟨hw, hall⟩ | ⟨i, cw, hget, hbc, hall, hearly⟩
      · refine ⟨0, cv, ?_, ?_, ?_⟩
        · rw [← h, hw]
          rfl
        · intro q hq
          rcases List.mem_cons.mp hq with hh | hh
          · rw [hh]
          · exact hall q hh
        · intro j hj q hq
          omega
      · refine ⟨i + 1, cw, ?_, ?_, ?_⟩
        · rw [← h]
          exact hget
        · intro q hq
          rcases List.mem_cons.mp hq with hh | hh
          · rw [hh]; simp; omega
          · exact hall q hh
        · intro j hj q hq
          match j, hq with
          | 0, hq =>
              injection hq with hq
              rw [← hq]
              simp
              omega
          | j+1, hq =>
              exact hearly j (by omega) q hq

theorem firstWithStr_spec (pyStr : Value → String) :
    ∀ (vs : List Value) (w : String) (ch : Value),
    firstWithStr pyStr w vs = some ch →
    pyStr ch = w ∧ ∃ i, vs.get? i = some ch ∧
      ∀ j, j < i → ∀ u, vs.get? j = some u → pyStr u ≠ w := by
  intro vs
  induction vs with
  | nil => intro w ch h; simp [firstWithStr] at h
  | cons v rest ih =>
      intro w ch h
      by_cases hv : pyStr v = w
      · simp only [firstWithStr, if_pos hv] at h
        injection h with h
        subst h
        exact ⟨hv, 0, rfl, by omega⟩
      · simp only [firstWithStr, if_neg hv] at h
        obtain ⟨hch, i, hget, hfirst⟩ := ih w ch h
        refine ⟨hch, i + 1, hget, ?_⟩
        intro j hj u hu
        match j, hu with
        | 0, hu =>
            injection hu with hu
            rw [← hu]
            exact hv
        | j+1, hu =>
            exact hfirst j (by omega) u hu



theorem compressKey_spec (pyStr : Value → String) (vs : List Value) (chosen : Value)
    (h : compressKey pyStr vs = some chosen) :
    (∃ i, vs.get? i = some chosen ∧
      ∀ j, j < i → ∀ u, vs.get? j = some u →
        cntStr pyStr vs (pyStr u) < cntStr pyStr vs (pyStr chosen)) ∧
    (∀ x ∈ vs, cntStr pyStr vs (pyStr x) ≤ cntStr pyStr vs (pyStr chosen)) := by
  -- unpack compressKey
  unfold compressKey at h
  cases hmk : maxKey (buildCounts pyStr vs []) with
  | none => rw [hmk] at h; exact Option.noConfusion h
  | some w =>
  rw [hmk] at h
  -- facts about the counts dict
  have knd : ((buildCounts pyStr vs []).map Prod.fst).Nodup :=
    keysNodup_buildCounts pyStr vs [] (by simp)
  have klo : ∀ s, lookupCnt (buildCounts pyStr vs []) s = cntStr pyStr vs s := by
    intro s
    rw [lookupCnt_buildCounts]
    simp [lookupCnt]
  have kiff : ∀ s, s ∈ (buildCounts pyStr vs []).map Prod.fst ↔ s ∈ vs.map pyStr := by
    intro s
    rw [mem_keys_buildCounts]
    simp
  have kord : ((buildCounts pyStr vs []).map Prod.fst).Pairwise
      (fun a b => foIdx pyStr vs a < foIdx pyStr vs b) := by
    refine buildCounts_keys_ord pyStr vs vs [] (by simp) ?_ ?_
    · simp [buildCounts]
    · intro s; simp [buildCounts]
  obtain ⟨iw, cw, hgetw, hallw, hearlyw⟩ := maxKey_spec _ w hmk
  have hmemw : (w, cw) ∈ buildCounts pyStr vs [] := List.get?_mem hgetw
  have hcw : cw = cntStr pyStr vs w := by
    rw [← klo w]
    exact (mem_lookupCnt _ w cw knd hmemw).symm
  obtain ⟨hchw, i, hgeti, hfirst⟩ := firstWithStr_spec pyStr vs w chosen h
  -- maximality over every element of vs
  have hmax : ∀ x ∈ vs, cntStr pyStr vs (pyStr x) ≤ cntStr pyStr vs (pyStr chosen) := by
    intro x hx
    have hxk : pyStr x ∈ (buildCounts pyStr vs []).map Prod.fst :=
      (kiff _).mpr (List.mem_map.mpr ⟨x, hx, rfl⟩)
    have hxe : (pyStr x, lookupCnt (buildCounts pyStr vs []) (pyStr x))
        ∈ buildCounts pyStr vs [] := lookupCnt_mem _ _ hxk
    have := hallw _ hxe
    rw [hchw]
    simp only [klo] at this
    omega
  refine ⟨⟨i, hgeti, ?_⟩, hmax⟩
  -- strictness for elements before the chosen one
  intro j hj u hu
  have hune : pyStr u ≠ w := hfirst j hj u hu
  have humem : u ∈ vs := List.get?_mem hu
  have huk : pyStr u ∈ (buildCounts pyStr vs []).map Prod.fst :=
    (kiff _).mpr (List.mem_map.mpr ⟨u, humem, rfl⟩)
  have hue : (pyStr u, lookupCnt (buildCounts pyStr vs []) (pyStr u))
      ∈ buildCounts pyStr vs [] := lookupCnt_mem _ _ huk
  obtain ⟨j', hj'⟩ := List.mem_iff_get?.mp hue
  rcases Nat.lt_trichotomy j' iw with hlt | heq | hgt
  · -- the u-class entry precedes the winner entry: strictly smaller count
    have := hearlyw j' hlt _ hj'
    rw [hchw, ← hcw]
    simp only [klo] at this ⊢
    omega
  · -- same entry: contradicts pyStr u ≠ w
    subst heq
    rw [hj'] at hgetw
    injection hgetw with hgetw
    exact absurd (congrArg Prod.fst hgetw) hune
  · -- the winner entry precedes the u-class entry: first-occurrence order
    exfalso
    have hfow : foIdx pyStr vs w = i := by
      rw [← hchw]
      exact foIdx_eq_of_first pyStr vs i chosen hgeti
        (fun j hj u hu => by rw [hchw]; exact hfirst j hj u hu)
    have hfou : foIdx pyStr vs (pyStr u) ≤ j := foIdx_le_of_get pyStr vs j u hu
    -- pairwise order of keys by first occurrence
    have hkeysw : ((buildCounts pyStr vs []).map Prod.fst).get? iw = some w := by
      rw [List.get?_map, hgetw]
      rfl
    have hkeysu : ((buildCounts pyStr vs []).map Prod.fst).get? j'
        = some (pyStr u) := by
      rw [List.get?_map, hj']
      rfl
    have hlen : j' < ((buildCounts pyStr vs []).map Prod.fst).length := by
      by_contra hge
      rw [List.get?_eq_none.mpr (Nat.le_of_not_lt hge)] at hkeysu
      exact Option.noConfusion hkeysu
    have hlenw : iw < ((buildCounts pyStr vs []).map Prod.fst).length := by omega
    have hord := (List.pairwise_iff_get.mp kord) ⟨iw, hlenw⟩ ⟨j', hlen⟩ hgt
    have hgw : ((buildCounts pyStr vs []).map Prod.fst).get ⟨iw, hlenw⟩ = w := by
      have := List.get?_eq_get hlenw
      rw [this] at hkeysw
      injection hkeysw
    have hgu : ((buildCounts pyStr vs []).map Prod.fst).get ⟨j', hlen⟩ = pyStr u := by
      have := List.get?_eq_get hlen
      rw [this] at hkeysu
      injection hkeysu
    rw [hgw, hgu] at hord
    omega




/-- C6: `compress` on a non-collective returns the failure marker and
leaves the packet table unchanged; on a collective it compresses the
`shared` dict key-by-key, wraps the result as a packet keyed by a content
hash of the compressed map and stores it in the table, returning
`{ok: packet}`; the per-key consensus is the most frequent value of the
key's list — frequency counted by string representation, as the source
does — with ties broken by the first-encountered value achieving the
maximum count (every strictly earlier element has strictly smaller
count); a packet stored under hash `h` is retrieved by `ref` on `#h`, and
`ref` of an absent hash yields `Null`. -/
theorem C6_compress_ref :
    (∀ (pyStr : Value → String) (hashFn : String → String) (coll : Value)
        (pstore : List (String × Value)),
      isCollective coll = false →
      compressCore pyStr hashFn coll pstore
        = (.map [(.str "fail", .str "not-collective")], pstore)) ∧
    (∀ (pyStr : Value → String) (hashFn : String → String)
        (entries shared : List (Value × Value)) (pstore : List (String × Value)),
      isCollective (.map entries) = true →
      pyFind entries (.str "shared") = some (.map shared) →
      compressCore pyStr hashFn (.map entries) pstore
        = (.map [(.str "ok",
            .map [(.str "__type__", .str "packet"),
                  (.str "hash",
                   .str (hashFn (pyStr (.map (compressEntries pyStr shared))))),
                  (.str "data", .map (compressEntries pyStr shared))])],
           fSet pstore (hashFn (pyStr (.map (compressEntries pyStr shared))))
             (.map [(.str "__type__", .str "packet"),
                    (.str "hash",
                     .str (hashFn (pyStr (.map (compressEntries pyStr shared))))),
                    (.str "data", .map (compressEntries pyStr shared))]))) ∧
    (∀ (pyStr : Value → String) (vs : List Value) (chosen : Value),
      compressKey pyStr vs = some chosen →
      chosen ∈ vs ∧
      (∃ i, vs.get? i = some chosen ∧
        ∀ j, j < i → ∀ u, vs.get? j = some u →
          cntStr pyStr vs (pyStr u) < cntStr pyStr vs (pyStr chosen)) ∧
      (∀ x ∈ vs, cntStr pyStr vs (pyStr x) ≤ cntStr pyStr vs (pyStr chosen))) ∧
    (∀ (pyStr : Value → String) (pstore : List (String × Value)) (h : String)
        (pk : Value),
      refCore pyStr (.hash h) (fSet pstore h pk) = pk) ∧
    (∀ (pyStr : Value → String) (pstore : List (String × Value)) (h : String),
      fLookup pstore h = none → refCore pyStr (.hash h) pstore = .null) := by
  refine ⟨?_, ?_, ?_, ?_, ?_⟩
  · intro pyStr hashFn coll pstore hc
    cases coll with
    | map entries =>
        simp only [isCollective] at hc
        cases hft : pyFind entries (.str "__type__") with
        | none => simp [compressCore, hft]
        | some t =>
            rw [hft] at hc
            simp only at hc
            simp [compressCore, hft, hc]
    | null => rfl
    | bool b => rfl
    | int i => rfl
    | float f => rfl
    | str s => rfl
    | sym s => rfl
    | kw s => rfl
    | hash s => rfl
    | list xs => rfl
    | closure p b e => rfl
    | macroVal p t e => rfl
    | builtin n => rfl
  · intro pyStr hashFn entries shared pstore hc hsh
    simp only [isCollective] at hc
    cases hft : pyFind entries (.str "__type__") with
    | none => rw [hft] at hc; exact Bool.noConfusion hc
    | some t =>
        rw [hft] at hc
        simp only at hc
        simp [compressCore, hft, hc, hsh]
  · intro pyStr vs chosen h
    obtain ⟨⟨i, hget, hfirst⟩, hmax⟩ := compressKey_spec pyStr vs chosen h
    exact ⟨List.get?_mem hget, ⟨i, hget, hfirst⟩, hmax⟩
  · intro pyStr pstore h pk
    simp [refCore, fLookup_fSet_eq]
  · intro pyStr pstore h hnone
    simp [refCore, hnone]




/-- C6 (witness): the consensus of `["x", "y", "x"]` is `"x"` (most
frequent), a non-collective compresses to the failure marker, and `ref`
retrieves a stored packet / yields `Null` on an empty table. -/
theorem C6_witness :
    compressKey strRep [Value.str "x", .str "y", .str "x"] = some (.str "x") ∧
    (∀ x ∈ [Value.str "x", Value.str "y", Value.str "x"],
      cntStr strRep [Value.str "x", Value.str "y", Value.str "x"] (strRep x)
        ≤ cntStr strRep [Value.str "x", Value.str "y", Value.str "x"]
            (strRep (Value.str "x"))) ∧
    isCollective (.int 0) = false ∧
    compressCore strRep (fun s => s) (.int 0) []
      = (.map [(.str "fail", .str "not-collective")], []) ∧
    refCore strRep (.hash "h") (fSet [] "h" (.int 5)) = .int 5 ∧
    refCore strRep (.hash "h") [] = .null := by
  have hck : compressKey strRep [Value.str "x", .str "y", .str "x"]
      = some (.str "x") := rfl
  refine ⟨hck, ?_, rfl, ?_, ?_, ?_⟩
  · exact (C6_compress_ref.2.2.1 strRep
      [Value.str "x", .str "y", .str "x"] (.str "x") hck).2.2
  · exact C6_compress_ref.1 strRep (fun s => s) (.int 0) [] rfl
  · exact C6_compress_ref.2.2.2.1 strRep [] "h" (.int 5)
  · exact C6_compress_ref.2.2.2.2 strRep [] "h" rfl


end HiveSpeak
